import Mathlib

/-!
Verification development for the rclouned two-way synchronizer
(src/sync.py).  The reconciliation engine (`Sync.sort`), the action
executor (`Sync.action` plus `Sync.exec_rclone`), and the cycle/loop
control flow (`Sync.run`, `sync_loop`, the lock manager) are embedded
shallowly below; timestamps are modelled as integers (Python compares
`time.struct_time` values with a total order), path names as strings,
and the per-path modtime tables as functions into `Option Int`
(a `None` entry reproduces the Python dictionaries whose values may
remain `None` when the listing did not return that path; comparing
`None` with `lastsync` raises `TypeError`, which the embedding renders
as `Option.none` / an explicit error value).
-/

namespace Rclouned

/-- The five collections built by `Sync.sort` (src/sync.py lines 178-182)
and consumed by `Sync.action`. -/
structure Plan where
  upload : List String
  download : List String
  local_move : List (String × String)
  local_backup : List String
  remote_backup : List String
deriving DecidableEq, Repr

/-- The fresh plan `Sync.sort` starts from (src/sync.py lines 178-182). -/
def emptyPlan : Plan :=
  { upload := [], download := [], local_move := [], local_backup := [],
    remote_backup := [] }

/-- The configuration keys consulted by the syncer (`_CONFIG`,
src/sync.py lines 17-25). -/
structure SyncConfig where
  folder : String
  remote : String
  subdir : String
  options : String
  interval : Int
  dryrun : Bool
  careful : Bool
deriving DecidableEq, Repr

/-- The conflict name tag, `"_conflict-" + time.strftime("%Y%m%d-%H%M%S")`
computed once per call to `Sync.sort` (src/sync.py line 177); `now` stands
for the formatted current time. -/
def conflictSuffix (now : String) : String := "_conflict-" ++ now

/-- The loop over `self.diff` in `Sync.sort` (src/sync.py lines 184-202).
Each differing path is classified against `lastsync`: local newer only →
upload (plus remote backup when careful), remote newer only → download
(plus local backup when careful), anything else → conflict triple.
A `none` modtime reproduces the `TypeError` Python raises when comparing
`None` with `self.lastsync`: the whole computation aborts. -/
def procDiff (careful : Bool) (ls : Int) (lc rc : String → Option Int)
    (sfx : String) : List String → Plan → Option Plan
  | [], plan => some plan
  | f :: rest, plan =>
    match lc f, rc f with
    | some lv, some rv =>
      if lv ≥ ls ∧ rv < ls then
        procDiff careful ls lc rc sfx rest
          { plan with upload := plan.upload ++ [f],
                      remote_backup :=
                        if careful then plan.remote_backup ++ [f]
                        else plan.remote_backup }
      else if lv < ls ∧ rv ≥ ls then
        procDiff careful ls lc rc sfx rest
          { plan with download := plan.download ++ [f],
                      local_backup :=
                        if careful then plan.local_backup ++ [f]
                        else plan.local_backup }
      else
        procDiff careful ls lc rc sfx rest
          { plan with local_move := plan.local_move ++ [(f, f ++ sfx)],
                      download := plan.download ++ [f],
                      upload := plan.upload ++ [f ++ sfx] }
    | _, _ => none

/-- The loop over `self.src` (missing on remote) in `Sync.sort`
(src/sync.py lines 204-208): local modtime at or after `lastsync` →
upload, otherwise local backup. Only the local table is consulted. -/
def procSrc (ls : Int) (lc : String → Option Int) :
    List String → Plan → Option Plan
  | [], plan => some plan
  | f :: rest, plan =>
    match lc f with
    | some lv =>
      if lv ≥ ls then
        procSrc ls lc rest { plan with upload := plan.upload ++ [f] }
      else
        procSrc ls lc rest
          { plan with local_backup := plan.local_backup ++ [f] }
    | none => none

/-- The loop over `self.dst` (missing on local) in `Sync.sort`
(src/sync.py lines 210-214): remote modtime at or after `lastsync` →
download, otherwise remote backup. -/
def procDst (ls : Int) (rc : String → Option Int) :
    List String → Plan → Option Plan
  | [], plan => some plan
  | f :: rest, plan =>
    match rc f with
    | some rv =>
      if rv ≥ ls then
        procDst ls rc rest { plan with download := plan.download ++ [f] }
      else
        procDst ls rc rest
          { plan with remote_backup := plan.remote_backup ++ [f] }
    | none => none

/-- `Sync.sort` (src/sync.py lines 176-214): starting from empty
collections, process the differing paths, then the paths missing on
remote, then the paths missing on local.  Returns `none` when a needed
modtime entry is `None` (Python raises `TypeError` at that point). -/
def sortPlan (careful : Bool) (ls : Int) (lc rc : String → Option Int)
    (now : String) (diff src dst : List String) : Option Plan :=
  let sfx := conflictSuffix now
  match procDiff careful ls lc rc sfx diff emptyPlan with
  | none => none
  | some p1 =>
    match procSrc ls lc src p1 with
    | none => none
    | some p2 => procDst ls rc dst p2

/-! Closed forms for the lists built by `sortPlan`: the contribution of a
single path, concatenated over the input lists.  These are proved equal
to the fields of the plan the fold produces. -/

/-- What one differing path contributes to `upload`. -/
def diffUploadOf (ls : Int) (lc rc : String → Option Int) (sfx : String)
    (f : String) : List String :=
  match lc f, rc f with
  | some lv, some rv =>
    if lv ≥ ls ∧ rv < ls then [f]
    else if lv < ls ∧ rv ≥ ls then []
    else [f ++ sfx]
  | _, _ => []

/-- What one differing path contributes to `download`. -/
def diffDownloadOf (ls : Int) (lc rc : String → Option Int)
    (f : String) : List String :=
  match lc f, rc f with
  | some lv, some rv =>
    if lv ≥ ls ∧ rv < ls then []
    else if lv < ls ∧ rv ≥ ls then [f]
    else [f]
  | _, _ => []

/-- What one differing path contributes to `local_move`. -/
def diffMoveOf (ls : Int) (lc rc : String → Option Int) (sfx : String)
    (f : String) : List (String × String) :=
  match lc f, rc f with
  | some lv, some rv =>
    if lv ≥ ls ∧ rv < ls then []
    else if lv < ls ∧ rv ≥ ls then []
    else [(f, f ++ sfx)]
  | _, _ => []

/-- What one differing path contributes to `local_backup`. -/
def diffLocalBackupOf (careful : Bool) (ls : Int)
    (lc rc : String → Option Int) (f : String) : List String :=
  match lc f, rc f with
  | some lv, some rv =>
    if lv ≥ ls ∧ rv < ls then []
    else if lv < ls ∧ rv ≥ ls then (if careful then [f] else [])
    else []
  | _, _ => []

/-- What one differing path contributes to `remote_backup`. -/
def diffRemoteBackupOf (careful : Bool) (ls : Int)
    (lc rc : String → Option Int) (f : String) : List String :=
  match lc f, rc f with
  | some lv, some rv =>
    if lv ≥ ls ∧ rv < ls then (if careful then [f] else [])
    else if lv < ls ∧ rv ≥ ls then []
    else []
  | _, _ => []

/-- What one missing-on-remote path contributes to `upload`. -/
def srcUploadOf (ls : Int) (lc : String → Option Int)
    (f : String) : List String :=
  match lc f with
  | some lv => if lv ≥ ls then [f] else []
  | none => []

/-- What one missing-on-remote path contributes to `local_backup`. -/
def srcBackupOf (ls : Int) (lc : String → Option Int)
    (f : String) : List String :=
  match lc f with
  | some lv => if lv ≥ ls then [] else [f]
  | none => []

/-- What one missing-on-local path contributes to `download`. -/
def dstDownloadOf (ls : Int) (rc : String → Option Int)
    (f : String) : List String :=
  match rc f with
  | some rv => if rv ≥ ls then [f] else []
  | none => []

/-- What one missing-on-local path contributes to `remote_backup`. -/
def dstBackupOf (ls : Int) (rc : String → Option Int)
    (f : String) : List String :=
  match rc f with
  | some rv => if rv ≥ ls then [] else [f]
  | none => []

/-! The action executor (`Sync.action`, src/sync.py lines 224-311, and
`Sync.exec_rclone`, lines 81-85) is modelled by the ordered trace of the
externally visible operations it performs. -/

/-- One externally visible operation of the executor: an external
command invocation (`Sync.exec_cmd`), a scratch-file write
(`open(..., "w")` under `.rclouned/sync.tmp/`), a scratch-file removal
(`os.remove`), or the last-sync marker write (`Sync.set_last_sync`,
src/sync.py lines 313-315). -/
inductive Call where
  | cmd (args : List String)
  | scratchWrite (path : String)
  | scratchRemove (path : String)
  | lastSyncWrite
deriving DecidableEq, Repr

/-- Python's `str.split(" ")` over the character list: cut at every
single space; consecutive spaces produce empty fragments and the empty
string yields one empty fragment.  Structural recursion keeps it
evaluable inside proofs. -/
def splitSpacesChars : List Char → List (List Char)
  | [] => [[]]
  | c :: rest =>
    if c = ' ' then [] :: splitSpacesChars rest
    else
      match splitSpacesChars rest with
      | [] => [[c]]
      | w :: ws => (c :: w) :: ws

/-- `self.config("options").split(" ")` (src/sync.py line 82). -/
def splitSpaces (s : String) : List String :=
  (splitSpacesChars s.toList).map (fun cs => String.mk cs)

/-- `Sync.exec_rclone` (src/sync.py lines 81-85): split the configured
option string on spaces, drop empty fragments, append `--dry-run` when
the dry-run flag is set and the sub-command is not `check`, and invoke
`rclone`.  (Python indexes `cmd[0]`; every call site passes a non-empty
command, modelled with `head?`.) -/
def execRcloneCalls (cfg : SyncConfig) (cmd : List String) : List Call :=
  let opts := (splitSpaces cfg.options).filter (fun x => x.length != 0)
  let opts :=
    if cfg.dryrun && !(cmd.head? == some "check") then opts ++ ["--dry-run"]
    else opts
  [Call.cmd (["rclone"] ++ opts ++ cmd)]

/-- The ordered operation trace of `Sync.action` (src/sync.py lines
224-311): the local-move loop (skipped when dry-run, lines 227-235),
then the local-backup block (lines 237-258), the remote-backup block
(lines 260-281), the upload block (lines 283-296) and the download
block (lines 298-311); each block runs only when its list is non-empty
(`if len(...)`). `backupDir` stands for
`".rclouned/backups/" + time.strftime(...) + "/"` (line 225). -/
def actionCalls (cfg : SyncConfig) (backupDir : String) (plan : Plan) :
    List Call :=
  (if cfg.dryrun then []
   else plan.local_move.map fun f =>
     Call.cmd ["mv", cfg.folder ++ f.1, cfg.folder ++ f.2])
  ++ (if plan.local_backup.length ≠ 0 then
        [Call.scratchWrite (cfg.folder ++ ".rclouned/sync.tmp/local_backup.txt")]
        ++ execRcloneCalls cfg ["copy", "--files-from",
             cfg.folder ++ ".rclouned/sync.tmp/local_backup.txt",
             cfg.folder, cfg.folder ++ backupDir]
        ++ execRcloneCalls cfg ["delete", "--files-from",
             cfg.folder ++ ".rclouned/sync.tmp/local_backup.txt",
             cfg.folder, "--rmdirs"]
        ++ [Call.scratchRemove (cfg.folder ++ ".rclouned/sync.tmp/local_backup.txt")]
      else [])
  ++ (if plan.remote_backup.length ≠ 0 then
        [Call.scratchWrite (cfg.folder ++ ".rclouned/sync.tmp/remote_backup.txt")]
        ++ execRcloneCalls cfg ["copy", "--files-from",
             cfg.folder ++ ".rclouned/sync.tmp/remote_backup.txt",
             cfg.remote ++ ":" ++ cfg.subdir,
             cfg.remote ++ ":" ++ cfg.subdir ++ backupDir]
        ++ execRcloneCalls cfg ["delete", "--files-from",
             cfg.folder ++ ".rclouned/sync.tmp/remote_backup.txt",
             cfg.remote ++ ":" ++ cfg.subdir, "--rmdirs"]
        ++ [Call.scratchRemove (cfg.folder ++ ".rclouned/sync.tmp/remote_backup.txt")]
      else [])
  ++ (if plan.upload.length ≠ 0 then
        [Call.scratchWrite (cfg.folder ++ ".rclouned/sync.tmp/upload.txt")]
        ++ execRcloneCalls cfg ["copy", "--files-from",
             cfg.folder ++ ".rclouned/sync.tmp/upload.txt",
             cfg.folder, cfg.remote ++ ":" ++ cfg.subdir]
        ++ [Call.scratchRemove (cfg.folder ++ ".rclouned/sync.tmp/upload.txt")]
      else [])
  ++ (if plan.download.length ≠ 0 then
        [Call.scratchWrite (cfg.folder ++ ".rclouned/sync.tmp/download.txt")]
        ++ execRcloneCalls cfg ["copy", "--files-from",
             cfg.folder ++ ".rclouned/sync.tmp/download.txt",
             cfg.remote ++ ":" ++ cfg.subdir, cfg.folder]
        ++ [Call.scratchRemove (cfg.folder ++ ".rclouned/sync.tmp/download.txt")]
      else [])

/-- The tail of `Sync.run` (src/sync.py lines 323-325): run the action
trace, then write the last-sync marker unless dry-run is set. -/
def runTailCalls (cfg : SyncConfig) (backupDir : String) (plan : Plan) :
    List Call :=
  actionCalls cfg backupDir plan
  ++ (if cfg.dryrun then [] else [Call.lastSyncWrite])

/-- Step 1 of the executor taken in isolation: the `mv` invocations for
the local-move pairs (src/sync.py lines 228-235, without the dry-run
guard). -/
def step1Moves (cfg : SyncConfig) (plan : Plan) : List Call :=
  plan.local_move.map fun f =>
    Call.cmd ["mv", cfg.folder ++ f.1, cfg.folder ++ f.2]

/-- Step 2 of the executor: archive-then-remove of the local-backup
paths (src/sync.py lines 237-258). -/
def step2LocalBackup (cfg : SyncConfig) (backupDir : String)
    (plan : Plan) : List Call :=
  if plan.local_backup.length ≠ 0 then
    [Call.scratchWrite (cfg.folder ++ ".rclouned/sync.tmp/local_backup.txt")]
    ++ execRcloneCalls cfg ["copy", "--files-from",
         cfg.folder ++ ".rclouned/sync.tmp/local_backup.txt",
         cfg.folder, cfg.folder ++ backupDir]
    ++ execRcloneCalls cfg ["delete", "--files-from",
         cfg.folder ++ ".rclouned/sync.tmp/local_backup.txt",
         cfg.folder, "--rmdirs"]
    ++ [Call.scratchRemove (cfg.folder ++ ".rclouned/sync.tmp/local_backup.txt")]
  else []

/-- Step 3 of the executor: archive-then-remove of the remote-backup
paths (src/sync.py lines 260-281). -/
def step3RemoteBackup (cfg : SyncConfig) (backupDir : String)
    (plan : Plan) : List Call :=
  if plan.remote_backup.length ≠ 0 then
    [Call.scratchWrite (cfg.folder ++ ".rclouned/sync.tmp/remote_backup.txt")]
    ++ execRcloneCalls cfg ["copy", "--files-from",
         cfg.folder ++ ".rclouned/sync.tmp/remote_backup.txt",
         cfg.remote ++ ":" ++ cfg.subdir,
         cfg.remote ++ ":" ++ cfg.subdir ++ backupDir]
    ++ execRcloneCalls cfg ["delete", "--files-from",
         cfg.folder ++ ".rclouned/sync.tmp/remote_backup.txt",
         cfg.remote ++ ":" ++ cfg.subdir, "--rmdirs"]
    ++ [Call.scratchRemove (cfg.folder ++ ".rclouned/sync.tmp/remote_backup.txt")]
  else []

/-- Step 4 of the executor: the upload copy (src/sync.py lines 283-296). -/
def step4Upload (cfg : SyncConfig) (plan : Plan) : List Call :=
  if plan.upload.length ≠ 0 then
    [Call.scratchWrite (cfg.folder ++ ".rclouned/sync.tmp/upload.txt")]
    ++ execRcloneCalls cfg ["copy", "--files-from",
         cfg.folder ++ ".rclouned/sync.tmp/upload.txt",
         cfg.folder, cfg.remote ++ ":" ++ cfg.subdir]
    ++ [Call.scratchRemove (cfg.folder ++ ".rclouned/sync.tmp/upload.txt")]
  else []

/-- Step 5 of the executor: the download copy (src/sync.py lines
298-311). -/
def step5Download (cfg : SyncConfig) (plan : Plan) : List Call :=
  if plan.download.length ≠ 0 then
    [Call.scratchWrite (cfg.folder ++ ".rclouned/sync.tmp/download.txt")]
    ++ execRcloneCalls cfg ["copy", "--files-from",
         cfg.folder ++ ".rclouned/sync.tmp/download.txt",
         cfg.remote ++ ":" ++ cfg.subdir, cfg.folder]
    ++ [Call.scratchRemove (cfg.folder ++ ".rclouned/sync.tmp/download.txt")]
  else []

/-- Whether a call is a local `mv` invocation. -/
def Call.isMv : Call → Bool
  | Call.cmd args => args.head? == some "mv"
  | _ => false

/-- The argument list of an `rclone` invocation (everything after the
program name), `none` for any other call. -/
def Call.rcloneArgs : Call → Option (List String)
  | Call.cmd args =>
    if args.head? == some "rclone" then some args.tail else none
  | _ => none

/-- Whether a call is harmless in dry-run terms: any non-`rclone`
operation except `mv`, and any `rclone` invocation carrying
`--dry-run`. -/
def Call.simulatedOnly : Call → Bool
  | Call.cmd args =>
    if args.head? == some "rclone" then args.tail.contains "--dry-run"
    else !(args.head? == some "mv")
  | Call.lastSyncWrite => false
  | _ => true

/-- The effect of the `mv` loop on which paths exist in the local tree:
each pair `(s, d)` makes `d` hold the content of `s` and removes `s`
(the semantics of `mv`). -/
def applyMoves : List (String × String) → (String → Bool) → (String → Bool)
  | [], fs => fs
  | m :: rest, fs =>
    applyMoves rest
      (fun x => if x = m.2 then fs m.1 else if x = m.1 then false else fs x)

/-- The local tree after step 1 of `Sync.action`: unchanged in dry-run
(the loop body is skipped, src/sync.py line 227), otherwise all
local-move renames applied. -/
def movePhase (cfg : SyncConfig) (plan : Plan) (fs : String → Bool) :
    String → Bool :=
  if cfg.dryrun then fs else applyMoves plan.local_move fs

/-! The cycle and loop control flow (`Sync.run`, src/sync.py lines
317-326, and `sync_loop`, lines 354-375) is modelled as a state machine
over the scratch directory `.rclouned/sync.tmp/`, which doubles as the
lock marker: `acquire_lock` creates it (line 55), `release_lock` removes
it with `os.rmdir` and swallows `OSError` (lines 57-62). -/

/-- The Python exception classes that can leave a sync cycle:
`SyncException` (defined src/sync.py line 32, caught by `sync_loop`
line 363), `subprocess.CalledProcessError` (raised by
`subprocess.run(..., check=True)` in `Sync.exec_cmd`, lines 64-72), and
`TypeError` (raised by `Sync.sort` when a modtime entry is `None`). -/
inductive ExcKind where
  | syncExc
  | calledProcessError
  | typeError
deriving DecidableEq, Repr

/-- `sync_loop` handles an exception iff it is a `SyncException`
(src/sync.py line 363); `CalledProcessError` and `TypeError` are not
subclasses of `SyncException`. -/
def syncLoopCatches : ExcKind → Bool
  | ExcKind.syncExc => true
  | _ => false

/-- Filesystem state relevant to the lock contract: the names of the
files currently inside `.rclouned/sync.tmp/`, whether that directory
(the lock marker) exists, and whether `lastsync.txt` was written this
cycle. -/
structure FsState where
  scratch : List String
  lockDir : Bool
  lastsyncWritten : Bool
deriving DecidableEq, Repr

/-- Exit codes of the external commands a cycle runs, in program order:
the two `rclone lsf` listings of `get_modtimes`, the `mv` loop, and the
`rclone` invocations of the five action blocks.  (The initial
`rclone check` is invoked with `check_ec=False`, so its exit code can
never raise, src/sync.py line 111.) -/
structure CycleEnv where
  lsfLocalExit : Int
  lsfRemoteExit : Int
  mvExit : Int
  lbCopyExit : Int
  lbDeleteExit : Int
  rbCopyExit : Int
  rbDeleteExit : Int
  upCopyExit : Int
  downCopyExit : Int
deriving DecidableEq, Repr

/-- The reconciliation inputs of one cycle, as assembled by
`load_last_sync`, `run_check` and `get_modtimes`. -/
structure SnapshotIn where
  lastsync : Int
  lc : String → Option Int
  rc : String → Option Int
  now : String
  diff : List String
  src : List String
  dst : List String

/-- `subprocess.run(cmd, check=check_ec)` in `Sync.exec_cmd`
(src/sync.py lines 64-72): a non-zero exit with `check_ec` set raises
`CalledProcessError`; nothing here ever raises `SyncException`. -/
def execCmdRaises (exitCode : Int) (check_ec : Bool) : Option ExcKind :=
  if check_ec && exitCode != 0 then some ExcKind.calledProcessError
  else none

/-- Sequencing of fallible stages: a raised exception short-circuits the
rest of the cycle (ordinary Python exception propagation). -/
def fsThen (r : FsState × Option ExcKind)
    (k : FsState → FsState × Option ExcKind) : FsState × Option ExcKind :=
  match r with
  | (st, some e) => (st, some e)
  | (st, none) => k st

/-- `Sync.run_check` (src/sync.py lines 96-122): `rclone check` writes
the three partition files into the scratch directory (its exit code is
ignored, `check_ec=False`), Python reads them back and removes all
three. -/
def runCheckFs (st : FsState) : FsState :=
  let st1 : FsState :=
    { st with scratch := st.scratch ++ ["diff.txt", "dst.txt", "src.txt"] }
  { st1 with scratch :=
      ((st1.scratch.erase "diff.txt").erase "dst.txt").erase "src.txt" }

/-- `Sync.get_modtimes` (src/sync.py lines 124-174): write
`local_check.txt`, run `rclone lsf` against the local root
(`check_ec=True`), remove the file; then the same with
`remote_check.txt` against the remote.  A failing listing leaves its
input file behind in the scratch directory. -/
def getModtimesFs (env : CycleEnv) (st : FsState) :
    FsState × Option ExcKind :=
  let st1 : FsState := { st with scratch := st.scratch ++ ["local_check.txt"] }
  match execCmdRaises env.lsfLocalExit true with
  | some e => (st1, some e)
  | none =>
    let st2 : FsState := { st1 with scratch := st1.scratch.erase "local_check.txt" }
    let st3 : FsState := { st2 with scratch := st2.scratch ++ ["remote_check.txt"] }
    match execCmdRaises env.lsfRemoteExit true with
    | some e => (st3, some e)
    | none =>
      ({ st3 with scratch := st3.scratch.erase "remote_check.txt" }, none)

/-- The `mv` loop of `Sync.action` (src/sync.py lines 227-235): skipped
in dry-run; otherwise each pair runs `mv` through `exec_cmd` with
`check_ec=True` (one exit code stands for the loop's invocations; the
live tree is not part of `FsState`). -/
def mvRaises (cfg : SyncConfig) (env : CycleEnv) (plan : Plan) :
    Option ExcKind :=
  if cfg.dryrun then none
  else if plan.local_move.length != 0 then execCmdRaises env.mvExit true
  else none

/-- One archive-then-remove block of `Sync.action` (src/sync.py lines
237-258 and 260-281): when its list is non-empty, write the path list
into the scratch directory, run `rclone copy` then `rclone delete`
(each may raise), and remove the path list only after both succeed. -/
def backupBlockFs (name : String) (nonempty : Bool)
    (copyExit deleteExit : Int) (st : FsState) : FsState × Option ExcKind :=
  if nonempty then
    let st1 : FsState := { st with scratch := st.scratch ++ [name] }
    match execCmdRaises copyExit true with
    | some e => (st1, some e)
    | none =>
      match execCmdRaises deleteExit true with
      | some e => (st1, some e)
      | none => ({ st1 with scratch := st1.scratch.erase name }, none)
  else (st, none)

/-- One copy block of `Sync.action` (src/sync.py lines 283-296 and
298-311): when its list is non-empty, write the path list, run
`rclone copy`, and remove the path list on success. -/
def copyBlockFs (name : String) (nonempty : Bool) (copyExit : Int)
    (st : FsState) : FsState × Option ExcKind :=
  if nonempty then
    let st1 : FsState := { st with scratch := st.scratch ++ [name] }
    match execCmdRaises copyExit true with
    | some e => (st1, some e)
    | none => ({ st1 with scratch := st1.scratch.erase name }, none)
  else (st, none)

/-- The scratch/exception behaviour of `Sync.action` (src/sync.py lines
224-311): the `mv` loop, then the four path-list blocks in order. -/
def actionFs (cfg : SyncConfig) (env : CycleEnv) (plan : Plan)
    (st : FsState) : FsState × Option ExcKind :=
  match mvRaises cfg env plan with
  | some e => (st, some e)
  | none =>
    fsThen (backupBlockFs "local_backup.txt" (plan.local_backup.length != 0)
        env.lbCopyExit env.lbDeleteExit st) fun st2 =>
      fsThen (backupBlockFs "remote_backup.txt" (plan.remote_backup.length != 0)
          env.rbCopyExit env.rbDeleteExit st2) fun st3 =>
        fsThen (copyBlockFs "upload.txt" (plan.upload.length != 0)
            env.upCopyExit st3) fun st4 =>
          copyBlockFs "download.txt" (plan.download.length != 0)
            env.downCopyExit st4

/-- `Sync.run` (src/sync.py lines 317-326): check pass, modtime pass,
sort (raising `TypeError` on a `None` modtime), action, and the
last-sync write unless dry-run. -/
def runFs (cfg : SyncConfig) (env : CycleEnv) (snap : SnapshotIn)
    (st : FsState) : FsState × Option ExcKind :=
  let st1 := runCheckFs st
  fsThen (getModtimesFs env st1) fun st2 =>
    match sortPlan cfg.careful snap.lastsync snap.lc snap.rc snap.now
        snap.diff snap.src snap.dst with
    | none => (st2, some ExcKind.typeError)
    | some plan =>
      fsThen (actionFs cfg env plan st2) fun st3 =>
        if cfg.dryrun then (st3, none)
        else ({ st3 with lastsyncWritten := true }, none)

/-- `Sync.release_lock` (src/sync.py lines 57-62): `os.rmdir` removes
the lock directory only when it exists and is empty; any `OSError`
(non-empty or already gone) is caught and merely logged. -/
def releaseLockFs (st : FsState) : FsState :=
  if st.lockDir && st.scratch.isEmpty then { st with lockDir := false }
  else st

/-- One iteration of `sync_loop` (src/sync.py lines 356-367):
`acquire_lock` creates the lock directory, the cycle runs inside
`try ... except SyncException ... finally: release_lock()`; an exception
that is not a `SyncException` propagates out of the loop (and is then
fatal: `main` catches it and exits with code 1, lines 392-401). -/
def loopIterationFs (cfg : SyncConfig) (env : CycleEnv) (snap : SnapshotIn)
    (st0 : FsState) : FsState × Option ExcKind :=
  let st1 : FsState := { st0 with lockDir := true }
  let r := runFs cfg env snap st1
  (releaseLockFs r.1,
   match r.2 with
   | some e => if syncLoopCatches e then none else some e
   | none => none)

/-! ### Handling shapes and concrete instances -/

/-- A differing path handled as a plain upload: in `Upload`, not in
`Download`, not among the `LocalMove` keys. -/
def uploadOnlyShape (plan : Plan) (p : String) : Prop :=
  p ∈ plan.upload ∧ p ∉ plan.download ∧ p ∉ plan.local_move.map Prod.fst

/-- A differing path handled as a plain download: in `Download`, not in
`Upload`, not among the `LocalMove` keys. -/
def downloadOnlyShape (plan : Plan) (p : String) : Prop :=
  p ∈ plan.download ∧ p ∉ plan.upload ∧ p ∉ plan.local_move.map Prod.fst

/-- A differing path handled as the conflict triple: moved aside to its
suffixed name, downloaded, with the suffixed copy uploaded (and the bare
path itself not uploaded). -/
def conflictShape (plan : Plan) (p sfx : String) : Prop :=
  (p, p ++ sfx) ∈ plan.local_move ∧ p ∈ plan.download ∧
    (p ++ sfx) ∈ plan.upload ∧ p ∉ plan.upload

/-- Constant modtime table: every path at time 12. -/
def mtTwelve : String → Option Int := fun _ => some 12

/-- Constant modtime table: every path at time 3. -/
def mtThree : String → Option Int := fun _ => some 3

/-- Constant modtime table: every path at time 0. -/
def mtZero : String → Option Int := fun _ => some 0

/-- Modtime table with no entries resolved (every value `None`). -/
def mtNone : String → Option Int := fun _ => none

/-- A local tree containing no paths at all. -/
def noFiles : String → Bool := fun _ => false

/-- A concrete configuration in normal (non-dry-run) mode. -/
def cfgEx : SyncConfig :=
  { folder := "/data/", remote := "gd", subdir := "", options := "",
    interval := 90, dryrun := false, careful := false }

/-- The same configuration with the dry-run flag set. -/
def cfgDry : SyncConfig := { cfgEx with dryrun := true }

/-- A cycle in which every external command exits with code 0. -/
def envAllOk : CycleEnv :=
  { lsfLocalExit := 0, lsfRemoteExit := 0, mvExit := 0, lbCopyExit := 0,
    lbDeleteExit := 0, rbCopyExit := 0, rbDeleteExit := 0, upCopyExit := 0,
    downCopyExit := 0 }

/-- A cycle in which the local `rclone lsf` listing of `get_modtimes`
exits non-zero. -/
def envLsfLocalFail : CycleEnv := { envAllOk with lsfLocalExit := 1 }

/-- A concrete snapshot: one differing path, stale on both sides. -/
def snapEx : SnapshotIn :=
  { lastsync := 1, lc := mtZero, rc := mtZero, now := "20260101-000000",
    diff := ["a.txt"], src := [], dst := [] }

/-- The same snapshot with the local modtime table unresolved. -/
def snapNoneEx : SnapshotIn := { snapEx with lc := mtNone }

/-- The filesystem before a cycle: no scratch files, no lock marker. -/
def fsStart : FsState :=
  { scratch := [], lockDir := false, lastsyncWritten := false }

/-- The plan `Sync.sort` computes for one differing path with local
time 12 and remote time 3 against lastsync 10, careful mode on. -/
def planUpEx : Plan :=
  { upload := ["a.txt"], download := [], local_move := [],
    local_backup := [], remote_backup := ["a.txt"] }

/-- The plan for one differing path with both modtimes at 12 against
lastsync 10 (the conflict branch). -/
def planConfEx : Plan :=
  { upload := ["a.txt" ++ conflictSuffix "TS"], download := ["a.txt"],
    local_move := [("a.txt", "a.txt" ++ conflictSuffix "TS")],
    local_backup := [], remote_backup := [] }

/-- The plan for one stale missing-on-remote path and one fresh
missing-on-local path. -/
def planOrphanEx : Plan :=
  { upload := [], download := ["c.txt"], local_move := [],
    local_backup := ["b.txt"], remote_backup := [] }

/-- The plan for an all-stale non-empty snapshot (one differing path,
one missing on remote, one missing on local, all before lastsync). -/
def planStaleEx : Plan :=
  { upload := ["a.txt" ++ conflictSuffix "TS"], download := ["a.txt"],
    local_move := [("a.txt", "a.txt" ++ conflictSuffix "TS")],
    local_backup := ["b.txt"], remote_backup := ["c.txt"] }

/-- The plan for a plain one-sided local change without careful mode. -/
def planUpPlainEx : Plan :=
  { upload := ["a.txt"], download := [], local_move := [],
    local_backup := [], remote_backup := [] }

/-- A plan containing only one local-backup entry. -/
def planLbEx : Plan :=
  { upload := [], download := [], local_move := [],
    local_backup := ["a.txt"], remote_backup := [] }

/-! ### Closed forms for the fields of the plan built by `Sync.sort` -/

theorem procDiff_eq (careful : Bool) (ls : Int) (lc rc : String → Option Int)
    (sfx : String) (l : List String) (plan : Plan)
    (h : ∀ f ∈ l, ∃ lv rv, lc f = some lv ∧ rc f = some rv) :
    procDiff careful ls lc rc sfx l plan = some
      { upload := plan.upload ++ l.flatMap (diffUploadOf ls lc rc sfx),
        download := plan.download ++ l.flatMap (diffDownloadOf ls lc rc),
        local_move := plan.local_move ++ l.flatMap (diffMoveOf ls lc rc sfx),
        local_backup :=
          plan.local_backup ++ l.flatMap (diffLocalBackupOf careful ls lc rc),
        remote_backup :=
          plan.remote_backup ++ l.flatMap (diffRemoteBackupOf careful ls lc rc) } := by
  induction l generalizing plan with
  | nil => simp [procDiff]
  | cons f rest ih =>
    obtain ⟨lv, rv, hlc, hrc⟩ := h f (List.mem_cons_self f rest)
    have hrest : ∀ g ∈ rest, ∃ lv rv, lc g = some lv ∧ rc g = some rv :=
      fun g hg => h g (List.mem_cons_of_mem f hg)
    simp only [procDiff, hlc, hrc]
    by_cases h1 : lv ≥ ls ∧ rv < ls
    · rw [if_pos h1, ih _ hrest]
      cases careful <;>
        simp [diffUploadOf, diffDownloadOf, diffMoveOf, diffLocalBackupOf,
          diffRemoteBackupOf, hlc, hrc, h1]
    · by_cases h2 : lv < ls ∧ rv ≥ ls
      · rw [if_neg h1, if_pos h2, ih _ hrest]
        cases careful <;>
          simp [diffUploadOf, diffDownloadOf, diffMoveOf, diffLocalBackupOf,
            diffRemoteBackupOf, hlc, hrc, h1, h2]
      · rw [if_neg h1, if_neg h2, ih _ hrest]
        cases careful <;>
          simp [diffUploadOf, diffDownloadOf, diffMoveOf, diffLocalBackupOf,
            diffRemoteBackupOf, hlc, hrc, h1, h2]

theorem procSrc_eq (ls : Int) (lc : String → Option Int) (l : List String)
    (plan : Plan) (h : ∀ f ∈ l, ∃ lv, lc f = some lv) :
    procSrc ls lc l plan = some
      { plan with
        upload := plan.upload ++ l.flatMap (srcUploadOf ls lc),
        local_backup := plan.local_backup ++ l.flatMap (srcBackupOf ls lc) } := by
  induction l generalizing plan with
  | nil => simp [procSrc]
  | cons f rest ih =>
    obtain ⟨lv, hlc⟩ := h f (List.mem_cons_self f rest)
    have hrest : ∀ g ∈ rest, ∃ lv, lc g = some lv :=
      fun g hg => h g (List.mem_cons_of_mem f hg)
    simp only [procSrc, hlc]
    by_cases h1 : lv ≥ ls
    · rw [if_pos h1, ih _ hrest]
      simp [srcUploadOf, srcBackupOf, hlc, h1]
    · rw [if_neg h1, ih _ hrest]
      simp [srcUploadOf, srcBackupOf, hlc, h1]

theorem procDst_eq (ls : Int) (rc : String → Option Int) (l : List String)
    (plan : Plan) (h : ∀ f ∈ l, ∃ rv, rc f = some rv) :
    procDst ls rc l plan = some
      { plan with
        download := plan.download ++ l.flatMap (dstDownloadOf ls rc),
        remote_backup := plan.remote_backup ++ l.flatMap (dstBackupOf ls rc) } := by
  induction l generalizing plan with
  | nil => simp [procDst]
  | cons f rest ih =>
    obtain ⟨rv, hrc⟩ := h f (List.mem_cons_self f rest)
    have hrest : ∀ g ∈ rest, ∃ rv, rc g = some rv :=
      fun g hg => h g (List.mem_cons_of_mem f hg)
    simp only [procDst, hrc]
    by_cases h1 : rv ≥ ls
    · rw [if_pos h1, ih _ hrest]
      simp [dstDownloadOf, dstBackupOf, hrc, h1]
    · rw [if_neg h1, ih _ hrest]
      simp [dstDownloadOf, dstBackupOf, hrc, h1]

theorem procDiff_isSome (careful : Bool) (ls : Int)
    (lc rc : String → Option Int) (sfx : String) (l : List String)
    (plan q : Plan) (h : procDiff careful ls lc rc sfx l plan = some q) :
    ∀ f ∈ l, ∃ lv rv, lc f = some lv ∧ rc f = some rv := by
  induction l generalizing plan with
  | nil => simp
  | cons f rest ih =>
    simp only [procDiff] at h
    cases hlc : lc f with
    | none => rw [hlc] at h; cases hrc : rc f <;> rw [hrc] at h <;> simp at h
    | some lv =>
      cases hrc : rc f with
      | none => rw [hlc, hrc] at h; simp at h
      | some rv =>
        simp only [hlc, hrc] at h
        intro g hg
        rcases List.mem_cons.mp hg with hgf | hgr
        · exact ⟨lv, rv, hgf ▸ hlc, hgf ▸ hrc⟩
        · split_ifs at h <;> exact ih _ h g hgr

theorem procSrc_isSome (ls : Int) (lc : String → Option Int)
    (l : List String) (plan q : Plan) (h : procSrc ls lc l plan = some q) :
    ∀ f ∈ l, ∃ lv, lc f = some lv := by
  induction l generalizing plan with
  | nil => simp
  | cons f rest ih =>
    simp only [procSrc] at h
    cases hlc : lc f with
    | none => rw [hlc] at h; simp at h
    | some lv =>
      simp only [hlc] at h
      intro g hg
      rcases List.mem_cons.mp hg with hgf | hgr
      · exact ⟨lv, hgf ▸ hlc⟩
      · split_ifs at h <;> exact ih _ h g hgr

theorem procDst_isSome (ls : Int) (rc : String → Option Int)
    (l : List String) (plan q : Plan) (h : procDst ls rc l plan = some q) :
    ∀ f ∈ l, ∃ rv, rc f = some rv := by
  induction l generalizing plan with
  | nil => simp
  | cons f rest ih =>
    simp only [procDst] at h
    cases hrc : rc f with
    | none => rw [hrc] at h; simp at h
    | some rv =>
      simp only [hrc] at h
      intro g hg
      rcases List.mem_cons.mp hg with hgf | hgr
      · exact ⟨rv, hgf ▸ hrc⟩
      · split_ifs at h <;> exact ih _ h g hgr

/-- Inversion for `sortPlan`: a successfully computed plan determines
every field as the concatenation of the per-path contributions, and all
needed modtime entries were present. -/
theorem sortPlan_inv (careful : Bool) (ls : Int)
    (lc rc : String → Option Int) (now : String)
    (diff src dst : List String) (plan : Plan)
    (h : sortPlan careful ls lc rc now diff src dst = some plan) :
    (∀ f ∈ diff, ∃ lv rv, lc f = some lv ∧ rc f = some rv) ∧
    (∀ f ∈ src, ∃ lv, lc f = some lv) ∧
    (∀ f ∈ dst, ∃ rv, rc f = some rv) ∧
    plan.upload =
      diff.flatMap (diffUploadOf ls lc rc (conflictSuffix now))
        ++ src.flatMap (srcUploadOf ls lc) ∧
    plan.download =
      diff.flatMap (diffDownloadOf ls lc rc)
        ++ dst.flatMap (dstDownloadOf ls rc) ∧
    plan.local_move = diff.flatMap (diffMoveOf ls lc rc (conflictSuffix now)) ∧
    plan.local_backup =
      diff.flatMap (diffLocalBackupOf careful ls lc rc)
        ++ src.flatMap (srcBackupOf ls lc) ∧
    plan.remote_backup =
      diff.flatMap (diffRemoteBackupOf careful ls lc rc)
        ++ dst.flatMap (dstBackupOf ls rc) := by
  simp only [sortPlan] at h
  cases hd : procDiff careful ls lc rc (conflictSuffix now) diff emptyPlan with
  | none =>
    simp only [hd] at h
    exact Option.noConfusion h
  | some p1 =>
    simp only [hd] at h
    cases hs : procSrc ls lc src p1 with
    | none =>
      simp only [hs] at h
      exact Option.noConfusion h
    | some p2 =>
      simp only [hs] at h
      have hdiffpres := procDiff_isSome _ _ _ _ _ _ _ _ hd
      have hsrcpres := procSrc_isSome _ _ _ _ _ hs
      have hdstpres := procDst_isSome _ _ _ _ _ h
      have hd2 := procDiff_eq careful ls lc rc (conflictSuffix now) diff
        emptyPlan hdiffpres
      rw [hd] at hd2
      have hp1 := (Option.some.injEq _ _).mp hd2
      have hs2 := procSrc_eq ls lc src p1 hsrcpres
      rw [hs] at hs2
      have hp2 := (Option.some.injEq _ _).mp hs2
      have ht2 := procDst_eq ls rc dst p2 hdstpres
      rw [h] at ht2
      have hp3 := (Option.some.injEq _ _).mp ht2
      subst hp1
      subst hp2
      subst hp3
      refine ⟨hdiffpres, hsrcpres, hdstpres, ?_, ?_, ?_, ?_, ?_⟩ <;>
        simp [emptyPlan]

/-! ### Membership inversion for the per-path contributions -/

theorem diffUploadOf_mem (ls : Int) (lc rc : String → Option Int)
    (sfx x f : String) (hx : x ∈ diffUploadOf ls lc rc sfx f) :
    ∃ lv rv, lc f = some lv ∧ rc f = some rv ∧
      ((lv ≥ ls ∧ rv < ls ∧ x = f) ∨
       (¬(lv ≥ ls ∧ rv < ls) ∧ ¬(lv < ls ∧ rv ≥ ls) ∧ x = f ++ sfx)) := by
  cases hlc : lc f with
  | none => simp [diffUploadOf, hlc] at hx
  | some lv =>
    cases hrc : rc f with
    | none => simp [diffUploadOf, hlc, hrc] at hx
    | some rv =>
      simp only [diffUploadOf, hlc, hrc] at hx
      split_ifs at hx with h1 h2
      · simp only [List.mem_singleton] at hx
        exact ⟨lv, rv, rfl, rfl, Or.inl ⟨h1.1, h1.2, hx⟩⟩
      · simp at hx
      · simp only [List.mem_singleton] at hx
        exact ⟨lv, rv, rfl, rfl, Or.inr ⟨h1, h2, hx⟩⟩

theorem diffDownloadOf_mem (ls : Int) (lc rc : String → Option Int)
    (x f : String) (hx : x ∈ diffDownloadOf ls lc rc f) :
    x = f ∧ ∃ lv rv, lc f = some lv ∧ rc f = some rv ∧
      ¬(lv ≥ ls ∧ rv < ls) := by
  cases hlc : lc f with
  | none => simp [diffDownloadOf, hlc] at hx
  | some lv =>
    cases hrc : rc f with
    | none => simp [diffDownloadOf, hlc, hrc] at hx
    | some rv =>
      simp only [diffDownloadOf, hlc, hrc] at hx
      split_ifs at hx with h1 h2
      · simp at hx
      · simp only [List.mem_singleton] at hx
        exact ⟨hx, lv, rv, rfl, rfl, h1⟩
      · simp only [List.mem_singleton] at hx
        exact ⟨hx, lv, rv, rfl, rfl, h1⟩

theorem diffMoveOf_mem (ls : Int) (lc rc : String → Option Int)
    (sfx : String) (m : String × String) (f : String)
    (hx : m ∈ diffMoveOf ls lc rc sfx f) :
    m.1 = f ∧ m.2 = f ++ sfx ∧ ∃ lv rv, lc f = some lv ∧ rc f = some rv ∧
      ¬(lv ≥ ls ∧ rv < ls) ∧ ¬(lv < ls ∧ rv ≥ ls) := by
  cases hlc : lc f with
  | none => simp [diffMoveOf, hlc] at hx
  | some lv =>
    cases hrc : rc f with
    | none => simp [diffMoveOf, hlc, hrc] at hx
    | some rv =>
      simp only [diffMoveOf, hlc, hrc] at hx
      split_ifs at hx with h1 h2
      · simp at hx
      · simp at hx
      · simp only [List.mem_singleton] at hx
        subst hx
        exact ⟨rfl, rfl, lv, rv, rfl, rfl, h1, h2⟩

theorem diffLocalBackupOf_mem (careful : Bool) (ls : Int)
    (lc rc : String → Option Int) (x f : String)
    (hx : x ∈ diffLocalBackupOf careful ls lc rc f) :
    x = f ∧ careful = true ∧ ∃ lv rv, lc f = some lv ∧ rc f = some rv ∧
      lv < ls ∧ rv ≥ ls := by
  cases hlc : lc f with
  | none => simp [diffLocalBackupOf, hlc] at hx
  | some lv =>
    cases hrc : rc f with
    | none => simp [diffLocalBackupOf, hlc, hrc] at hx
    | some rv =>
      simp only [diffLocalBackupOf, hlc, hrc] at hx
      split_ifs at hx with h1 h2 h3
      · simp at hx
      · simp only [List.mem_singleton] at hx
        exact ⟨hx, h3, lv, rv, rfl, rfl, h2⟩
      · simp at hx
      · simp at hx

theorem diffRemoteBackupOf_mem (careful : Bool) (ls : Int)
    (lc rc : String → Option Int) (x f : String)
    (hx : x ∈ diffRemoteBackupOf careful ls lc rc f) :
    x = f ∧ careful = true ∧ ∃ lv rv, lc f = some lv ∧ rc f = some rv ∧
      lv ≥ ls ∧ rv < ls := by
  cases hlc : lc f with
  | none => simp [diffRemoteBackupOf, hlc] at hx
  | some lv =>
    cases hrc : rc f with
    | none => simp [diffRemoteBackupOf, hlc, hrc] at hx
    | some rv =>
      simp only [diffRemoteBackupOf, hlc, hrc] at hx
      split_ifs at hx with h1 h2
      · simp only [List.mem_singleton] at hx
        exact ⟨hx, h2, lv, rv, rfl, rfl, h1⟩
      · simp at hx
      · simp at hx
      · simp at hx

theorem srcUploadOf_mem (ls : Int) (lc : String → Option Int)
    (x f : String) (hx : x ∈ srcUploadOf ls lc f) :
    x = f ∧ ∃ lv, lc f = some lv ∧ lv ≥ ls := by
  cases hlc : lc f with
  | none => simp [srcUploadOf, hlc] at hx
  | some lv =>
    simp only [srcUploadOf, hlc] at hx
    split_ifs at hx with h1
    · simp only [List.mem_singleton] at hx
      exact ⟨hx, lv, rfl, h1⟩
    · simp at hx

theorem srcBackupOf_mem (ls : Int) (lc : String → Option Int)
    (x f : String) (hx : x ∈ srcBackupOf ls lc f) :
    x = f ∧ ∃ lv, lc f = some lv ∧ lv < ls := by
  cases hlc : lc f with
  | none => simp [srcBackupOf, hlc] at hx
  | some lv =>
    simp only [srcBackupOf, hlc] at hx
    split_ifs at hx with h1
    · simp at hx
    · simp only [List.mem_singleton] at hx
      exact ⟨hx, lv, rfl, by omega⟩

theorem dstDownloadOf_mem (ls : Int) (rc : String → Option Int)
    (x f : String) (hx : x ∈ dstDownloadOf ls rc f) :
    x = f ∧ ∃ rv, rc f = some rv ∧ rv ≥ ls := by
  cases hrc : rc f with
  | none => simp [dstDownloadOf, hrc] at hx
  | some rv =>
    simp only [dstDownloadOf, hrc] at hx
    split_ifs at hx with h1
    · simp only [List.mem_singleton] at hx
      exact ⟨hx, rv, rfl, h1⟩
    · simp at hx

theorem dstBackupOf_mem (ls : Int) (rc : String → Option Int)
    (x f : String) (hx : x ∈ dstBackupOf ls rc f) :
    x = f ∧ ∃ rv, rc f = some rv ∧ rv < ls := by
  cases hrc : rc f with
  | none => simp [dstBackupOf, hrc] at hx
  | some rv =>
    simp only [dstBackupOf, hrc] at hx
    split_ifs at hx with h1
    · simp at hx
    · simp only [List.mem_singleton] at hx
      exact ⟨hx, rv, rfl, by omega⟩

/-! ### Classification of a differing path in the computed plan -/

/-- A differing path with a local-side-only change (local at or after
`lastsync`, remote strictly before) is planned as an upload, with a
remote backup exactly when careful mode is on. -/
theorem sortUp (careful : Bool) (ls : Int) (lc rc : String → Option Int)
    (now : String) (diff src dst : List String) (plan : Plan)
    (p : String) (lv rv : Int)
    (hplan : sortPlan careful ls lc rc now diff src dst = some plan)
    (hp : p ∈ diff) (hlc : lc p = some lv) (hrc : rc p = some rv)
    (hpsrc : p ∉ src) (hpdst : p ∉ dst)
    (h1 : lv ≥ ls) (h2 : rv < ls) :
    p ∈ plan.upload ∧ p ∉ plan.download ∧
    p ∉ plan.local_move.map Prod.fst ∧
    (p ∈ plan.remote_backup ↔ careful = true) ∧ p ∉ plan.local_backup := by
  obtain ⟨-, -, -, hup, hdown, hmove, hlb, hrb⟩ :=
    sortPlan_inv careful ls lc rc now diff src dst plan hplan
  refine ⟨?_, ?_, ?_, ⟨?_, ?_⟩, ?_⟩
  · rw [hup]
    exact List.mem_append_left _
      (List.mem_flatMap.mpr ⟨p, hp, by simp [diffUploadOf, hlc, hrc, h1, h2]⟩)
  · rw [hdown]
    intro hmem
    rcases List.mem_append.mp hmem with hm | hm
    · obtain ⟨f, hf, hxf⟩ := List.mem_flatMap.mp hm
      obtain ⟨heq, lv2, rv2, hlc2, hrc2, hnup⟩ :=
        diffDownloadOf_mem ls lc rc p f hxf
      subst heq
      obtain rfl := Option.some.inj (hlc.symm.trans hlc2)
      obtain rfl := Option.some.inj (hrc.symm.trans hrc2)
      exact hnup ⟨h1, h2⟩
    · obtain ⟨f, hf, hxf⟩ := List.mem_flatMap.mp hm
      obtain ⟨heq, -⟩ := dstDownloadOf_mem ls rc p f hxf
      exact hpdst (by rwa [← heq] at hf)
  · rw [hmove]
    intro hmem
    obtain ⟨m, hm, hm1⟩ := List.mem_map.mp hmem
    obtain ⟨f, hf, hxf⟩ := List.mem_flatMap.mp hm
    obtain ⟨he1, -, lv2, rv2, hlc2, hrc2, hnup, -⟩ :=
      diffMoveOf_mem ls lc rc (conflictSuffix now) m f hxf
    have heq : p = f := hm1 ▸ he1
    subst heq
    obtain rfl := Option.some.inj (hlc.symm.trans hlc2)
    obtain rfl := Option.some.inj (hrc.symm.trans hrc2)
    exact hnup ⟨h1, h2⟩
  · intro hm
    rw [hrb] at hm
    rcases List.mem_append.mp hm with hm | hm
    · obtain ⟨f, hf, hxf⟩ := List.mem_flatMap.mp hm
      obtain ⟨-, hcar, -⟩ := diffRemoteBackupOf_mem careful ls lc rc p f hxf
      exact hcar
    · obtain ⟨f, hf, hxf⟩ := List.mem_flatMap.mp hm
      obtain ⟨heq, -⟩ := dstBackupOf_mem ls rc p f hxf
      exact absurd (show p ∈ dst by rwa [← heq] at hf) hpdst
  · intro hc
    rw [hrb]
    exact List.mem_append_left _
      (List.mem_flatMap.mpr
        ⟨p, hp, by simp [diffRemoteBackupOf, hlc, hrc, h1, h2, hc]⟩)
  · intro hm
    rw [hlb] at hm
    rcases List.mem_append.mp hm with hm | hm
    · obtain ⟨f, hf, hxf⟩ := List.mem_flatMap.mp hm
      obtain ⟨heq, -, lv2, rv2, hlc2, hrc2, hd1, hd2⟩ :=
        diffLocalBackupOf_mem careful ls lc rc p f hxf
      subst heq
      obtain rfl := Option.some.inj (hlc.symm.trans hlc2)
      omega
    · obtain ⟨f, hf, hxf⟩ := List.mem_flatMap.mp hm
      obtain ⟨heq, -⟩ := srcBackupOf_mem ls lc p f hxf
      exact hpsrc (by rwa [← heq] at hf)

/-- A differing path with a remote-side-only change is planned as a
download, with a local backup exactly when careful mode is on. -/
theorem sortDown (careful : Bool) (ls : Int) (lc rc : String → Option Int)
    (now : String) (diff src dst : List String) (plan : Plan)
    (p : String) (lv rv : Int)
    (hplan : sortPlan careful ls lc rc now diff src dst = some plan)
    (hp : p ∈ diff) (hlc : lc p = some lv) (hrc : rc p = some rv)
    (hpsrc : p ∉ src) (hpdst : p ∉ dst)
    (hsfx : ∀ q ∈ diff, ¬(q ++ conflictSuffix now = p))
    (h1 : lv < ls) (h2 : rv ≥ ls) :
    p ∈ plan.download ∧ p ∉ plan.upload ∧
    p ∉ plan.local_move.map Prod.fst ∧
    (p ∈ plan.local_backup ↔ careful = true) ∧ p ∉ plan.remote_backup := by
  obtain ⟨-, -, -, hup, hdown, hmove, hlb, hrb⟩ :=
    sortPlan_inv careful ls lc rc now diff src dst plan hplan
  refine ⟨?_, ?_, ?_, ⟨?_, ?_⟩, ?_⟩
  · rw [hdown]
    have hn1 : ¬(lv ≥ ls ∧ rv < ls) := by omega
    exact List.mem_append_left _
      (List.mem_flatMap.mpr
        ⟨p, hp, by simp [diffDownloadOf, hlc, hrc, hn1, h1, h2]⟩)
  · rw [hup]
    intro hmem
    rcases List.mem_append.mp hmem with hm | hm
    · obtain ⟨f, hf, hxf⟩ := List.mem_flatMap.mp hm
      obtain ⟨lv2, rv2, hlc2, hrc2, hcase⟩ :=
        diffUploadOf_mem ls lc rc (conflictSuffix now) p f hxf
      rcases hcase with ⟨hu1, hu2, heq⟩ | ⟨-, -, heq⟩
      · subst heq
        obtain rfl := Option.some.inj (hlc.symm.trans hlc2)
        omega
      · exact hsfx f hf heq.symm
    · obtain ⟨f, hf, hxf⟩ := List.mem_flatMap.mp hm
      obtain ⟨heq, -⟩ := srcUploadOf_mem ls lc p f hxf
      exact hpsrc (by rwa [← heq] at hf)
  · rw [hmove]
    intro hmem
    obtain ⟨m, hm, hm1⟩ := List.mem_map.mp hmem
    obtain ⟨f, hf, hxf⟩ := List.mem_flatMap.mp hm
    obtain ⟨he1, -, lv2, rv2, hlc2, hrc2, -, hndown⟩ :=
      diffMoveOf_mem ls lc rc (conflictSuffix now) m f hxf
    have heq : p = f := hm1 ▸ he1
    subst heq
    obtain rfl := Option.some.inj (hlc.symm.trans hlc2)
    obtain rfl := Option.some.inj (hrc.symm.trans hrc2)
    exact hndown ⟨h1, h2⟩
  · intro hm
    rw [hlb] at hm
    rcases List.mem_append.mp hm with hm | hm
    · obtain ⟨f, hf, hxf⟩ := List.mem_flatMap.mp hm
      obtain ⟨-, hcar, -⟩ := diffLocalBackupOf_mem careful ls lc rc p f hxf
      exact hcar
    · obtain ⟨f, hf, hxf⟩ := List.mem_flatMap.mp hm
      obtain ⟨heq, -⟩ := srcBackupOf_mem ls lc p f hxf
      exact absurd (show p ∈ src by rwa [← heq] at hf) hpsrc
  · intro hc
    rw [hlb]
    have hn1 : ¬(lv ≥ ls ∧ rv < ls) := by omega
    exact List.mem_append_left _
      (List.mem_flatMap.mpr
        ⟨p, hp, by simp [diffLocalBackupOf, hlc, hrc, hn1, h1, h2, hc]⟩)
  · intro hm
    rw [hrb] at hm
    rcases List.mem_append.mp hm with hm | hm
    · obtain ⟨f, hf, hxf⟩ := List.mem_flatMap.mp hm
      obtain ⟨heq, -, lv2, rv2, hlc2, hrc2, hu1, hu2⟩ :=
        diffRemoteBackupOf_mem careful ls lc rc p f hxf
      subst heq
      obtain rfl := Option.some.inj (hlc.symm.trans hlc2)
      omega
    · obtain ⟨f, hf, hxf⟩ := List.mem_flatMap.mp hm
      obtain ⟨heq, -⟩ := dstBackupOf_mem ls rc p f hxf
      exact hpdst (by rwa [← heq] at hf)

/-- A differing path whose modtimes fall on the same side of `lastsync`
is planned as the conflict triple, and nothing else. -/
theorem sortConflict (careful : Bool) (ls : Int)
    (lc rc : String → Option Int) (now : String)
    (diff src dst : List String) (plan : Plan) (p : String) (lv rv : Int)
    (hplan : sortPlan careful ls lc rc now diff src dst = some plan)
    (hp : p ∈ diff) (hlc : lc p = some lv) (hrc : rc p = some rv)
    (hpsrc : p ∉ src) (hpdst : p ∉ dst)
    (hsfx : ∀ q ∈ diff, ¬(q ++ conflictSuffix now = p))
    (hnup : ¬(lv ≥ ls ∧ rv < ls)) (hndown : ¬(lv < ls ∧ rv ≥ ls)) :
    (p, p ++ conflictSuffix now) ∈ plan.local_move ∧
    p ∈ plan.download ∧ (p ++ conflictSuffix now) ∈ plan.upload ∧
    p ∉ plan.upload ∧ p ∉ plan.local_backup ∧ p ∉ plan.remote_backup ∧
    (∀ b, (p, b) ∈ plan.local_move → b = p ++ conflictSuffix now) := by
  obtain ⟨-, -, -, hup, hdown, hmove, hlb, hrb⟩ :=
    sortPlan_inv careful ls lc rc now diff src dst plan hplan
  refine ⟨?_, ?_, ?_, ?_, ?_, ?_, ?_⟩
  · rw [hmove]
    exact List.mem_flatMap.mpr
      ⟨p, hp, by simp [diffMoveOf, hlc, hrc, hnup, hndown]⟩
  · rw [hdown]
    exact List.mem_append_left _
      (List.mem_flatMap.mpr
        ⟨p, hp, by simp [diffDownloadOf, hlc, hrc, hnup, hndown]⟩)
  · rw [hup]
    exact List.mem_append_left _
      (List.mem_flatMap.mpr
        ⟨p, hp, by simp [diffUploadOf, hlc, hrc, hnup, hndown]⟩)
  · rw [hup]
    intro hmem
    rcases List.mem_append.mp hmem with hm | hm
    · obtain ⟨f, hf, hxf⟩ := List.mem_flatMap.mp hm
      obtain ⟨lv2, rv2, hlc2, hrc2, hcase⟩ :=
        diffUploadOf_mem ls lc rc (conflictSuffix now) p f hxf
      rcases hcase with ⟨hu1, hu2, heq⟩ | ⟨-, -, heq⟩
      · subst heq
        obtain rfl := Option.some.inj (hlc.symm.trans hlc2)
        obtain rfl := Option.some.inj (hrc.symm.trans hrc2)
        exact hnup ⟨hu1, hu2⟩
      · exact hsfx f hf heq.symm
    · obtain ⟨f, hf, hxf⟩ := List.mem_flatMap.mp hm
      obtain ⟨heq, -⟩ := srcUploadOf_mem ls lc p f hxf
      exact hpsrc (by rwa [← heq] at hf)
  · intro hm
    rw [hlb] at hm
    rcases List.mem_append.mp hm with hm | hm
    · obtain ⟨f, hf, hxf⟩ := List.mem_flatMap.mp hm
      obtain ⟨heq, -, lv2, rv2, hlc2, hrc2, hd1, hd2⟩ :=
        diffLocalBackupOf_mem careful ls lc rc p f hxf
      subst heq
      obtain rfl := Option.some.inj (hlc.symm.trans hlc2)
      obtain rfl := Option.some.inj (hrc.symm.trans hrc2)
      exact hndown ⟨hd1, hd2⟩
    · obtain ⟨f, hf, hxf⟩ := List.mem_flatMap.mp hm
      obtain ⟨heq, -⟩ := srcBackupOf_mem ls lc p f hxf
      exact hpsrc (by rwa [← heq] at hf)
  · intro hm
    rw [hrb] at hm
    rcases List.mem_append.mp hm with hm | hm
    · obtain ⟨f, hf, hxf⟩ := List.mem_flatMap.mp hm
      obtain ⟨heq, -, lv2, rv2, hlc2, hrc2, hu1, hu2⟩ :=
        diffRemoteBackupOf_mem careful ls lc rc p f hxf
      subst heq
      obtain rfl := Option.some.inj (hlc.symm.trans hlc2)
      obtain rfl := Option.some.inj (hrc.symm.trans hrc2)
      exact hnup ⟨hu1, hu2⟩
    · obtain ⟨f, hf, hxf⟩ := List.mem_flatMap.mp hm
      obtain ⟨heq, -⟩ := dstBackupOf_mem ls rc p f hxf
      exact hpdst (by rwa [← heq] at hf)
  · intro b hb
    rw [hmove] at hb
    obtain ⟨f, hf, hxf⟩ := List.mem_flatMap.mp hb
    obtain ⟨he1, he2, -⟩ :=
      diffMoveOf_mem ls lc rc (conflictSuffix now) (p, b) f hxf
    have heq : p = f := he1
    subst heq
    exact he2

/-- A missing-on-remote path whose local modtime is at or after
`lastsync` is planned as an upload and not backed up. -/
theorem sortSrcNew (careful : Bool) (ls : Int) (lc rc : String → Option Int)
    (now : String) (diff src dst : List String) (plan : Plan)
    (p : String) (lv : Int)
    (hplan : sortPlan careful ls lc rc now diff src dst = some plan)
    (hp : p ∈ src) (hlc : lc p = some lv) (hpdiff : p ∉ diff)
    (h1 : lv ≥ ls) :
    p ∈ plan.upload ∧ p ∉ plan.local_backup := by
  obtain ⟨-, -, -, hup, -, -, hlb, -⟩ :=
    sortPlan_inv careful ls lc rc now diff src dst plan hplan
  constructor
  · rw [hup]
    exact List.mem_append_right _
      (List.mem_flatMap.mpr ⟨p, hp, by simp [srcUploadOf, hlc, h1]⟩)
  · intro hm
    rw [hlb] at hm
    rcases List.mem_append.mp hm with hm | hm
    · obtain ⟨f, hf, hxf⟩ := List.mem_flatMap.mp hm
      obtain ⟨heq, -⟩ := diffLocalBackupOf_mem careful ls lc rc p f hxf
      exact hpdiff (by rwa [← heq] at hf)
    · obtain ⟨f, hf, hxf⟩ := List.mem_flatMap.mp hm
      obtain ⟨heq, lv2, hlc2, hlt⟩ := srcBackupOf_mem ls lc p f hxf
      subst heq
      obtain rfl := Option.some.inj (hlc.symm.trans hlc2)
      omega

/-- A missing-on-remote path whose local modtime is before `lastsync`
is planned as a local backup and not uploaded. -/
theorem sortSrcOld (careful : Bool) (ls : Int) (lc rc : String → Option Int)
    (now : String) (diff src dst : List String) (plan : Plan)
    (p : String) (lv : Int)
    (hplan : sortPlan careful ls lc rc now diff src dst = some plan)
    (hp : p ∈ src) (hlc : lc p = some lv) (hpdiff : p ∉ diff)
    (hsfx : ∀ q ∈ diff, ¬(q ++ conflictSuffix now = p))
    (h1 : lv < ls) :
    p ∈ plan.local_backup ∧ p ∉ plan.upload := by
  obtain ⟨-, -, -, hup, -, -, hlb, -⟩ :=
    sortPlan_inv careful ls lc rc now diff src dst plan hplan
  constructor
  · rw [hlb]
    have hn : ¬(lv ≥ ls) := by omega
    exact List.mem_append_right _
      (List.mem_flatMap.mpr ⟨p, hp, by simp [srcBackupOf, hlc, hn]⟩)
  · intro hm
    rw [hup] at hm
    rcases List.mem_append.mp hm with hm | hm
    · obtain ⟨f, hf, hxf⟩ := List.mem_flatMap.mp hm
      obtain ⟨lv2, rv2, hlc2, hrc2, hcase⟩ :=
        diffUploadOf_mem ls lc rc (conflictSuffix now) p f hxf
      rcases hcase with ⟨-, -, heq⟩ | ⟨-, -, heq⟩
      · exact hpdiff (by rwa [← heq] at hf)
      · exact hsfx f hf heq.symm
    · obtain ⟨f, hf, hxf⟩ := List.mem_flatMap.mp hm
      obtain ⟨heq, lv2, hlc2, hge⟩ := srcUploadOf_mem ls lc p f hxf
      subst heq
      obtain rfl := Option.some.inj (hlc.symm.trans hlc2)
      omega

/-- A missing-on-local path whose remote modtime is at or after
`lastsync` is planned as a download and not backed up. -/
theorem sortDstNew (careful : Bool) (ls : Int) (lc rc : String → Option Int)
    (now : String) (diff src dst : List String) (plan : Plan)
    (p : String) (rv : Int)
    (hplan : sortPlan careful ls lc rc now diff src dst = some plan)
    (hp : p ∈ dst) (hrc : rc p = some rv) (hpdiff : p ∉ diff)
    (h1 : rv ≥ ls) :
    p ∈ plan.download ∧ p ∉ plan.remote_backup := by
  obtain ⟨-, -, -, -, hdown, -, -, hrb⟩ :=
    sortPlan_inv careful ls lc rc now diff src dst plan hplan
  constructor
  · rw [hdown]
    exact List.mem_append_right _
      (List.mem_flatMap.mpr ⟨p, hp, by simp [dstDownloadOf, hrc, h1]⟩)
  · intro hm
    rw [hrb] at hm
    rcases List.mem_append.mp hm with hm | hm
    · obtain ⟨f, hf, hxf⟩ := List.mem_flatMap.mp hm
      obtain ⟨heq, -⟩ := diffRemoteBackupOf_mem careful ls lc rc p f hxf
      exact hpdiff (by rwa [← heq] at hf)
    · obtain ⟨f, hf, hxf⟩ := List.mem_flatMap.mp hm
      obtain ⟨heq, rv2, hrc2, hlt⟩ := dstBackupOf_mem ls rc p f hxf
      subst heq
      obtain rfl := Option.some.inj (hrc.symm.trans hrc2)
      omega

/-- A missing-on-local path whose remote modtime is before `lastsync`
is planned as a remote backup and not downloaded. -/
theorem sortDstOld (careful : Bool) (ls : Int) (lc rc : String → Option Int)
    (now : String) (diff src dst : List String) (plan : Plan)
    (p : String) (rv : Int)
    (hplan : sortPlan careful ls lc rc now diff src dst = some plan)
    (hp : p ∈ dst) (hrc : rc p = some rv) (hpdiff : p ∉ diff)
    (h1 : rv < ls) :
    p ∈ plan.remote_backup ∧ p ∉ plan.download := by
  obtain ⟨-, -, -, -, hdown, -, -, hrb⟩ :=
    sortPlan_inv careful ls lc rc now diff src dst plan hplan
  constructor
  · rw [hrb]
    have hn : ¬(rv ≥ ls) := by omega
    exact List.mem_append_right _
      (List.mem_flatMap.mpr ⟨p, hp, by simp [dstBackupOf, hrc, hn]⟩)
  · intro hm
    rw [hdown] at hm
    rcases List.mem_append.mp hm with hm | hm
    · obtain ⟨f, hf, hxf⟩ := List.mem_flatMap.mp hm
      obtain ⟨heq, -⟩ := diffDownloadOf_mem ls lc rc p f hxf
      exact hpdiff (by rwa [← heq] at hf)
    · obtain ⟨f, hf, hxf⟩ := List.mem_flatMap.mp hm
      obtain ⟨heq, rv2, hrc2, hge⟩ := dstDownloadOf_mem ls rc p f hxf
      subst heq
      obtain rfl := Option.some.inj (hrc.symm.trans hrc2)
      omega

/-! ### Claims about the reconciliation engine -/

/-- Claim C1: for every differing path whose local and remote modtimes
are present, a local-only change (local at or after lastsync, remote
before lastsync) is planned as Upload, not Download, not among the
LocalMove keys, and is in RemoteBackup iff careful is set;
symmetrically a remote-only change is planned as Download only and is
in LocalBackup iff careful is set.  The side conditions express the
disjointness of the diff partitions (spec data model) and the per-run
freshness of the conflict suffix. -/
theorem claim_C1 (careful : Bool) (ls : Int) (lc rc : String → Option Int)
    (now : String) (diff src dst : List String) (plan : Plan)
    (p : String) (lv rv : Int)
    (hplan : sortPlan careful ls lc rc now diff src dst = some plan)
    (hp : p ∈ diff) (hlc : lc p = some lv) (hrc : rc p = some rv)
    (hpsrc : p ∉ src) (hpdst : p ∉ dst)
    (hsfx : ∀ q ∈ diff, ¬(q ++ conflictSuffix now = p)) :
    (lv ≥ ls ∧ rv < ls →
      p ∈ plan.upload ∧ p ∉ plan.download ∧
      p ∉ plan.local_move.map Prod.fst ∧
      (p ∈ plan.remote_backup ↔ careful = true)) ∧
    (lv < ls ∧ rv ≥ ls →
      p ∈ plan.download ∧ p ∉ plan.upload ∧
      p ∉ plan.local_move.map Prod.fst ∧
      (p ∈ plan.local_backup ↔ careful = true)) := by
  constructor
  · rintro ⟨h1, h2⟩
    obtain ⟨ha, hb, hcm, hiff, -⟩ :=
      sortUp careful ls lc rc now diff src dst plan p lv rv hplan hp hlc hrc
        hpsrc hpdst h1 h2
    exact ⟨ha, hb, hcm, hiff⟩
  · rintro ⟨h1, h2⟩
    obtain ⟨ha, hb, hcm, hiff, -⟩ :=
      sortDown careful ls lc rc now diff src dst plan p lv rv hplan hp hlc
        hrc hpsrc hpdst hsfx h1 h2
    exact ⟨ha, hb, hcm, hiff⟩

/-- Witness for claim C1 at a concrete one-sided local change (local
time 12, remote time 3, lastsync 10, careful mode on). -/
theorem claim_C1_witness :
    ((12 : Int) ≥ 10 ∧ (3 : Int) < 10 →
      "a.txt" ∈ planUpEx.upload ∧ "a.txt" ∉ planUpEx.download ∧
      "a.txt" ∉ planUpEx.local_move.map Prod.fst ∧
      ("a.txt" ∈ planUpEx.remote_backup ↔ true = true)) ∧
    ((12 : Int) < 10 ∧ (3 : Int) ≥ 10 →
      "a.txt" ∈ planUpEx.download ∧ "a.txt" ∉ planUpEx.upload ∧
      "a.txt" ∉ planUpEx.local_move.map Prod.fst ∧
      ("a.txt" ∈ planUpEx.local_backup ↔ true = true)) :=
  claim_C1 true 10 mtTwelve mtThree "TS" ["a.txt"] [] [] planUpEx "a.txt"
    12 3 (by decide) (by decide) (by decide) (by decide) (by decide)
    (by decide) (by decide)

/-- Claim C2: a differing path where neither or both sides are at or
after lastsync gets exactly the conflict triple: the pair
`(p, p ++ suffix)` in LocalMove, `p` in Download, `p ++ suffix` in
Upload, with the single per-cycle suffix `conflictSuffix now` (computed
once before the loop, src/sync.py line 177, hence the same for every
conflicting path of the cycle); the path lands in no other collection
and in no other move pair. -/
theorem claim_C2 (careful : Bool) (ls : Int) (lc rc : String → Option Int)
    (now : String) (diff src dst : List String) (plan : Plan)
    (p : String) (lv rv : Int)
    (hplan : sortPlan careful ls lc rc now diff src dst = some plan)
    (hp : p ∈ diff) (hlc : lc p = some lv) (hrc : rc p = some rv)
    (hpsrc : p ∉ src) (hpdst : p ∉ dst)
    (hsfx : ∀ q ∈ diff, ¬(q ++ conflictSuffix now = p))
    (hboth : lv ≥ ls ↔ rv ≥ ls) :
    (p, p ++ conflictSuffix now) ∈ plan.local_move ∧
    p ∈ plan.download ∧ (p ++ conflictSuffix now) ∈ plan.upload ∧
    p ∉ plan.upload ∧ p ∉ plan.local_backup ∧ p ∉ plan.remote_backup ∧
    (∀ b, (p, b) ∈ plan.local_move → b = p ++ conflictSuffix now) := by
  have hnup : ¬(lv ≥ ls ∧ rv < ls) := by
    intro h
    have := hboth.mp h.1
    omega
  have hndown : ¬(lv < ls ∧ rv ≥ ls) := by
    intro h
    have := hboth.mpr h.2
    omega
  exact sortConflict careful ls lc rc now diff src dst plan p lv rv hplan
    hp hlc hrc hpsrc hpdst hsfx hnup hndown

/-- Witness for claim C2 at a concrete concurrent change (both sides at
time 12, lastsync 10). -/
theorem claim_C2_witness :
    ("a.txt", "a.txt" ++ conflictSuffix "TS") ∈ planConfEx.local_move ∧
    "a.txt" ∈ planConfEx.download ∧
    ("a.txt" ++ conflictSuffix "TS") ∈ planConfEx.upload ∧
    "a.txt" ∉ planConfEx.upload ∧ "a.txt" ∉ planConfEx.local_backup ∧
    "a.txt" ∉ planConfEx.remote_backup ∧
    (∀ b, ("a.txt", b) ∈ planConfEx.local_move →
      b = "a.txt" ++ conflictSuffix "TS") :=
  claim_C2 false 10 mtTwelve mtTwelve "TS" ["a.txt"] [] [] planConfEx
    "a.txt" 12 12 (by decide) (by decide) (by decide) (by decide)
    (by decide) (by decide) (by decide) (by decide)

/-- Claim C3: a missing-on-remote path is uploaded when its local
modtime is at or after lastsync and otherwise archived to LocalBackup
(and not uploaded); symmetrically a missing-on-local path is downloaded
when its remote modtime is at or after lastsync and otherwise archived
to RemoteBackup.  The careful flag is arbitrary here: orphan backups do
not depend on it. -/
theorem claim_C3 (careful : Bool) (ls : Int) (lc rc : String → Option Int)
    (now : String) (diff src dst : List String) (plan : Plan)
    (p1 p2 : String) (lv rv : Int)
    (hplan : sortPlan careful ls lc rc now diff src dst = some plan)
    (hp1 : p1 ∈ src) (hlc : lc p1 = some lv) (hp1d : p1 ∉ diff)
    (hsfx : ∀ q ∈ diff, ¬(q ++ conflictSuffix now = p1))
    (hp2 : p2 ∈ dst) (hrc : rc p2 = some rv) (hp2d : p2 ∉ diff) :
    ((lv ≥ ls → p1 ∈ plan.upload ∧ p1 ∉ plan.local_backup) ∧
     (lv < ls → p1 ∈ plan.local_backup ∧ p1 ∉ plan.upload)) ∧
    ((rv ≥ ls → p2 ∈ plan.download ∧ p2 ∉ plan.remote_backup) ∧
     (rv < ls → p2 ∈ plan.remote_backup ∧ p2 ∉ plan.download)) := by
  refine ⟨⟨?_, ?_⟩, ?_, ?_⟩
  · intro h1
    exact sortSrcNew careful ls lc rc now diff src dst plan p1 lv hplan hp1
      hlc hp1d h1
  · intro h1
    exact sortSrcOld careful ls lc rc now diff src dst plan p1 lv hplan hp1
      hlc hp1d hsfx h1
  · intro h1
    exact sortDstNew careful ls lc rc now diff src dst plan p2 rv hplan hp2
      hrc hp2d h1
  · intro h1
    exact sortDstOld careful ls lc rc now diff src dst plan p2 rv hplan hp2
      hrc hp2d h1

/-- Witness for claim C3 at a concrete stale missing-on-remote path
(local time 3) and a fresh missing-on-local path (remote time 12),
lastsync 10. -/
theorem claim_C3_witness :
    (((3 : Int) ≥ 10 →
        "b.txt" ∈ planOrphanEx.upload ∧ "b.txt" ∉ planOrphanEx.local_backup) ∧
     ((3 : Int) < 10 →
        "b.txt" ∈ planOrphanEx.local_backup ∧ "b.txt" ∉ planOrphanEx.upload)) ∧
    (((12 : Int) ≥ 10 →
        "c.txt" ∈ planOrphanEx.download ∧ "c.txt" ∉ planOrphanEx.remote_backup) ∧
     ((12 : Int) < 10 →
        "c.txt" ∈ planOrphanEx.remote_backup ∧ "c.txt" ∉ planOrphanEx.download)) :=
  claim_C3 false 10 mtThree mtTwelve "TS" [] ["b.txt"] ["c.txt"]
    planOrphanEx "b.txt" "c.txt" 3 12 (by decide) (by decide) (by decide)
    (by decide) (by decide) (by decide) (by decide) (by decide)

/-- Counterexample to claim C6 as stated: an unchanged, non-empty diff
snapshot re-planned with lastsync advanced past both modtimes yields
the conflict triple, not an empty plan. -/
theorem claim_C6_cex :
    sortPlan false 1 mtZero mtZero "TS" ["a.txt"] [] [] =
      some { upload := ["a.txt" ++ conflictSuffix "TS"],
             download := ["a.txt"],
             local_move := [("a.txt", "a.txt" ++ conflictSuffix "TS")],
             local_backup := [], remote_backup := [] } ∧
    sortPlan false 1 mtZero mtZero "TS" ["a.txt"] [] [] ≠ some emptyPlan :=
  ⟨by decide, by decide⟩

/-- Claim C6 (amended): re-running sort on an unchanged snapshot with
lastsync advanced past every recorded modtime yields an empty plan
exactly when all three diff partitions are empty; a non-empty Differing
set falls into the conflict branch and one-sided paths into backups. -/
theorem claim_C6 (careful : Bool) (ls : Int) (lc rc : String → Option Int)
    (now : String) (diff src dst : List String) (plan : Plan)
    (hplan : sortPlan careful ls lc rc now diff src dst = some plan)
    (hdiff : ∀ f ∈ diff,
      ∃ lv rv, lc f = some lv ∧ rc f = some rv ∧ lv < ls ∧ rv < ls)
    (hsrc : ∀ f ∈ src, ∃ lv, lc f = some lv ∧ lv < ls)
    (hdst : ∀ f ∈ dst, ∃ rv, rc f = some rv ∧ rv < ls) :
    plan = emptyPlan ↔ (diff = [] ∧ src = [] ∧ dst = []) := by
  obtain ⟨-, -, -, hup, hdown, hmove, hlb, hrb⟩ :=
    sortPlan_inv careful ls lc rc now diff src dst plan hplan
  constructor
  · intro he
    refine ⟨?_, ?_, ?_⟩
    · cases diff with
      | nil => rfl
      | cons f rest =>
        obtain ⟨lv, rv, hlcf, hrcf, hl, hr⟩ :=
          hdiff f (List.mem_cons_self f rest)
        have hnup : ¬(lv ≥ ls ∧ rv < ls) := by omega
        have hndown : ¬(lv < ls ∧ rv ≥ ls) := by omega
        have hmem : (f, f ++ conflictSuffix now) ∈ plan.local_move := by
          rw [hmove]
          exact List.mem_flatMap.mpr ⟨f, List.mem_cons_self f rest,
            by simp [diffMoveOf, hlcf, hrcf, hnup, hndown]⟩
        rw [he] at hmem
        simp [emptyPlan] at hmem
    · cases src with
      | nil => rfl
      | cons f rest =>
        obtain ⟨lv, hlcf, hl⟩ := hsrc f (List.mem_cons_self f rest)
        have hn : ¬(lv ≥ ls) := by omega
        have hmem : f ∈ plan.local_backup := by
          rw [hlb]
          exact List.mem_append_right _
            (List.mem_flatMap.mpr ⟨f, List.mem_cons_self f rest,
              by simp [srcBackupOf, hlcf, hn]⟩)
        rw [he] at hmem
        simp [emptyPlan] at hmem
    · cases dst with
      | nil => rfl
      | cons f rest =>
        obtain ⟨rv, hrcf, hr⟩ := hdst f (List.mem_cons_self f rest)
        have hn : ¬(rv ≥ ls) := by omega
        have hmem : f ∈ plan.remote_backup := by
          rw [hrb]
          exact List.mem_append_right _
            (List.mem_flatMap.mpr ⟨f, List.mem_cons_self f rest,
              by simp [dstBackupOf, hrcf, hn]⟩)
        rw [he] at hmem
        simp [emptyPlan] at hmem
  · rintro ⟨rfl, rfl, rfl⟩
    have hempty : sortPlan careful ls lc rc now [] [] [] = some emptyPlan :=
      rfl
    rw [hempty] at hplan
    exact (Option.some.inj hplan).symm

/-- Witness for claim C6 at a concrete non-empty all-stale snapshot
(every modtime 3, lastsync 10). -/
theorem claim_C6_witness :
    planStaleEx = emptyPlan ↔
      (["a.txt"] = ([] : List String) ∧ ["b.txt"] = ([] : List String) ∧
        ["c.txt"] = ([] : List String)) :=
  claim_C6 false 10 mtThree mtThree "TS" ["a.txt"] ["b.txt"] ["c.txt"]
    planStaleEx (by decide)
    (fun f hf => ⟨3, 3, rfl, rfl, by decide, by decide⟩)
    (fun f hf => ⟨3, rfl, by decide⟩)
    (fun f hf => ⟨3, rfl, by decide⟩)

/-- Claim C7: every differing path with present modtimes is handled in
exactly one of three mutually exclusive shapes: upload-only,
download-only, or the conflict triple.  Side conditions as in C1. -/
theorem claim_C7 (careful : Bool) (ls : Int) (lc rc : String → Option Int)
    (now : String) (diff src dst : List String) (plan : Plan)
    (p : String) (lv rv : Int)
    (hplan : sortPlan careful ls lc rc now diff src dst = some plan)
    (hp : p ∈ diff) (hlc : lc p = some lv) (hrc : rc p = some rv)
    (hpsrc : p ∉ src) (hpdst : p ∉ dst)
    (hsfx : ∀ q ∈ diff, ¬(q ++ conflictSuffix now = p)) :
    (uploadOnlyShape plan p ∧ ¬downloadOnlyShape plan p ∧
      ¬conflictShape plan p (conflictSuffix now)) ∨
    (¬uploadOnlyShape plan p ∧ downloadOnlyShape plan p ∧
      ¬conflictShape plan p (conflictSuffix now)) ∨
    (¬uploadOnlyShape plan p ∧ ¬downloadOnlyShape plan p ∧
      conflictShape plan p (conflictSuffix now)) := by
  by_cases h1 : lv ≥ ls ∧ rv < ls
  · obtain ⟨ha, hb, hcm, -, -⟩ :=
      sortUp careful ls lc rc now diff src dst plan p lv rv hplan hp hlc hrc
        hpsrc hpdst h1.1 h1.2
    left
    refine ⟨⟨ha, hb, hcm⟩, ?_, ?_⟩
    · intro hd
      exact hb hd.1
    · intro hcs
      exact hcs.2.2.2 ha
  · by_cases h2 : lv < ls ∧ rv ≥ ls
    · obtain ⟨ha, hb, hcm, -, -⟩ :=
        sortDown careful ls lc rc now diff src dst plan p lv rv hplan hp hlc
          hrc hpsrc hpdst hsfx h2.1 h2.2
      right
      left
      refine ⟨?_, ⟨ha, hb, hcm⟩, ?_⟩
      · intro hu
        exact hb hu.1
      · intro hcs
        exact hcm (List.mem_map.mpr ⟨(p, p ++ conflictSuffix now), hcs.1, rfl⟩)
    · obtain ⟨hm, hd, hu, hnu, -, -, -⟩ :=
        sortConflict careful ls lc rc now diff src dst plan p lv rv hplan hp
          hlc hrc hpsrc hpdst hsfx h1 h2
      right
      right
      refine ⟨?_, ?_, ⟨hm, hd, hu, hnu⟩⟩
      · intro hup
        exact hnu hup.1
      · intro hdn
        exact hdn.2.2 (List.mem_map.mpr ⟨(p, p ++ conflictSuffix now), hm, rfl⟩)

/-- Witness for claim C7 at a concrete one-sided local change (local
time 12, remote time 3, lastsync 10). -/
theorem claim_C7_witness :
    (uploadOnlyShape planUpPlainEx "a.txt" ∧
      ¬downloadOnlyShape planUpPlainEx "a.txt" ∧
      ¬conflictShape planUpPlainEx "a.txt" (conflictSuffix "TS")) ∨
    (¬uploadOnlyShape planUpPlainEx "a.txt" ∧
      downloadOnlyShape planUpPlainEx "a.txt" ∧
      ¬conflictShape planUpPlainEx "a.txt" (conflictSuffix "TS")) ∨
    (¬uploadOnlyShape planUpPlainEx "a.txt" ∧
      ¬downloadOnlyShape planUpPlainEx "a.txt" ∧
      conflictShape planUpPlainEx "a.txt" (conflictSuffix "TS")) :=
  claim_C7 false 10 mtTwelve mtThree "TS" ["a.txt"] [] [] planUpPlainEx
    "a.txt" 12 3 (by decide) (by decide) (by decide) (by decide)
    (by decide) (by decide) (by decide)

/-! ### Lock-directory preservation through the cycle -/

theorem fsThen_lockDir (r : FsState × Option ExcKind)
    (k : FsState → FsState × Option ExcKind) (b : Bool)
    (hr : r.1.lockDir = b) (hk : ∀ st, (k st).1.lockDir = st.lockDir) :
    (fsThen r k).1.lockDir = b := by
  rcases r with ⟨st, e⟩
  cases e with
  | none => exact (hk st).trans hr
  | some e => exact hr

theorem getModtimesFs_lockDir (env : CycleEnv) (st : FsState) :
    (getModtimesFs env st).1.lockDir = st.lockDir := by
  unfold getModtimesFs
  cases h1 : execCmdRaises env.lsfLocalExit true with
  | some e => rfl
  | none =>
    cases h2 : execCmdRaises env.lsfRemoteExit true with
    | some e => rfl
    | none => rfl

theorem backupBlockFs_lockDir (name : String) (nonempty : Bool)
    (copyExit deleteExit : Int) (st : FsState) :
    (backupBlockFs name nonempty copyExit deleteExit st).1.lockDir =
      st.lockDir := by
  unfold backupBlockFs
  split_ifs with hne
  · cases h1 : execCmdRaises copyExit true with
    | some e => rfl
    | none =>
      cases h2 : execCmdRaises deleteExit true with
      | some e => rfl
      | none => rfl
  · rfl

theorem copyBlockFs_lockDir (name : String) (nonempty : Bool)
    (copyExit : Int) (st : FsState) :
    (copyBlockFs name nonempty copyExit st).1.lockDir = st.lockDir := by
  unfold copyBlockFs
  split_ifs with hne
  · cases h1 : execCmdRaises copyExit true with
    | some e => rfl
    | none => rfl
  · rfl

theorem actionFs_lockDir (cfg : SyncConfig) (env : CycleEnv) (plan : Plan)
    (st : FsState) : (actionFs cfg env plan st).1.lockDir = st.lockDir := by
  unfold actionFs
  cases hmv : mvRaises cfg env plan with
  | some e => rfl
  | none =>
    refine fsThen_lockDir _ _ _ (backupBlockFs_lockDir _ _ _ _ _) ?_
    intro st2
    refine fsThen_lockDir _ _ _ (backupBlockFs_lockDir _ _ _ _ _) ?_
    intro st3
    refine fsThen_lockDir _ _ _ (copyBlockFs_lockDir _ _ _ _) ?_
    intro st4
    exact copyBlockFs_lockDir _ _ _ _

theorem runFs_lockDir (cfg : SyncConfig) (env : CycleEnv) (snap : SnapshotIn)
    (st : FsState) : (runFs cfg env snap st).1.lockDir = st.lockDir := by
  unfold runFs
  refine fsThen_lockDir _ _ _ (getModtimesFs_lockDir env (runCheckFs st)) ?_
  intro st2
  cases hs : sortPlan cfg.careful snap.lastsync snap.lc snap.rc snap.now
      snap.diff snap.src snap.dst with
  | none => rfl
  | some plan =>
    refine fsThen_lockDir _ _ _ (actionFs_lockDir cfg env plan st2) ?_
    intro st3
    cases hd : cfg.dryrun <;> simp [hd]

theorem releaseLockFs_lockDir (st : FsState) (h : st.lockDir = true) :
    (releaseLockFs st).lockDir = false ↔ st.scratch = [] := by
  unfold releaseLockFs
  rw [h]
  cases hsc : st.scratch with
  | nil => simp
  | cons a l => simp [h]

/-! ### Calls issued by the executor under the dry-run flag -/

theorem execRcloneCalls_dry (cfg : SyncConfig) (cmd : List String)
    (h : cfg.dryrun = true) (hc : (cmd.head? == some "check") = false)
    (c : Call) (hm : c ∈ execRcloneCalls cfg cmd) :
    c.isMv = false ∧
    (∀ rest, c.rcloneArgs = some rest → "--dry-run" ∈ rest) ∧
    c ≠ Call.lastSyncWrite := by
  simp only [execRcloneCalls, h, hc, Bool.not_false, Bool.and_self,
    if_true, List.mem_singleton] at hm
  subst hm
  refine ⟨rfl, ?_, by simp⟩
  intro rest hrest
  simp only [Call.rcloneArgs] at hrest
  rw [if_pos (by rfl)] at hrest
  obtain rfl := Option.some.inj hrest
  simp

theorem dryBlock2 (cfg : SyncConfig) (h : cfg.dryrun = true) (cond : Prop)
    [Decidable cond] (a : String) (c1 c2 : List String)
    (h1 : (c1.head? == some "check") = false)
    (h2 : (c2.head? == some "check") = false) (c : Call)
    (hm : c ∈ (if cond then
        [Call.scratchWrite a] ++ execRcloneCalls cfg c1
          ++ execRcloneCalls cfg c2 ++ [Call.scratchRemove a]
      else [])) :
    c.isMv = false ∧
    (∀ rest, c.rcloneArgs = some rest → "--dry-run" ∈ rest) ∧
    c ≠ Call.lastSyncWrite := by
  split_ifs at hm with hcnd
  · rcases List.mem_append.mp hm with hm | hm
    · rcases List.mem_append.mp hm with hm | hm
      · rcases List.mem_append.mp hm with hm | hm
        · simp only [List.mem_singleton] at hm
          subst hm
          exact ⟨rfl, fun rest hr => by simp [Call.rcloneArgs] at hr,
            by simp⟩
        · exact execRcloneCalls_dry cfg c1 h h1 c hm
      · exact execRcloneCalls_dry cfg c2 h h2 c hm
    · simp only [List.mem_singleton] at hm
      subst hm
      exact ⟨rfl, fun rest hr => by simp [Call.rcloneArgs] at hr, by simp⟩
  · simp at hm

theorem dryBlock1 (cfg : SyncConfig) (h : cfg.dryrun = true) (cond : Prop)
    [Decidable cond] (a : String) (c1 : List String)
    (h1 : (c1.head? == some "check") = false) (c : Call)
    (hm : c ∈ (if cond then
        [Call.scratchWrite a] ++ execRcloneCalls cfg c1
          ++ [Call.scratchRemove a]
      else [])) :
    c.isMv = false ∧
    (∀ rest, c.rcloneArgs = some rest → "--dry-run" ∈ rest) ∧
    c ≠ Call.lastSyncWrite := by
  split_ifs at hm with hcnd
  · rcases List.mem_append.mp hm with hm | hm
    · rcases List.mem_append.mp hm with hm | hm
      · simp only [List.mem_singleton] at hm
        subst hm
        exact ⟨rfl, fun rest hr => by simp [Call.rcloneArgs] at hr, by simp⟩
      · exact execRcloneCalls_dry cfg c1 h h1 c hm
    · simp only [List.mem_singleton] at hm
      subst hm
      exact ⟨rfl, fun rest hr => by simp [Call.rcloneArgs] at hr, by simp⟩
  · simp at hm

/-- Every call the cycle tail issues under the dry-run flag is harmless:
it is not a local rename, every rclone invocation carries `--dry-run`,
and the last-sync marker is never written. -/
theorem dryTraceOk (cfg : SyncConfig) (backupDir : String) (plan : Plan)
    (h : cfg.dryrun = true) :
    ∀ c ∈ runTailCalls cfg backupDir plan,
      c.isMv = false ∧
      (∀ rest, c.rcloneArgs = some rest → "--dry-run" ∈ rest) ∧
      c ≠ Call.lastSyncWrite := by
  intro c hc
  unfold runTailCalls actionCalls at hc
  rw [if_pos h, if_pos h] at hc
  simp only [List.nil_append, List.append_nil] at hc
  rcases List.mem_append.mp hc with hc | hc
  · rcases List.mem_append.mp hc with hc | hc
    · rcases List.mem_append.mp hc with hc | hc
      · exact dryBlock2 cfg h _ _ _ _ (by rfl) (by rfl) c hc
      · exact dryBlock2 cfg h _ _ _ _ (by rfl) (by rfl) c hc
    · exact dryBlock1 cfg h _ _ _ (by rfl) c hc
  · exact dryBlock1 cfg h _ _ _ (by rfl) c hc

/-! ### Claims about the cycle, the lock, and the executor -/

/-- Claim C4 evidence: in the code, a backend invocation failing inside a
cycle raises `subprocess.CalledProcessError`, and a `None` modtime
raises `TypeError`; `sync_loop` catches only `SyncException` (which is
never raised anywhere), so both errors escape the loop iteration
(reaching `main`'s catch-all, which exits the process with code 1)
rather than being recovered at the loop level.  The lock release is
still attempted, but the cycle error is fatal, contradicting the
claimed recoverability. -/
theorem claim_C4_code :
    (loopIterationFs cfgEx envLsfLocalFail snapEx fsStart).2 =
      some ExcKind.calledProcessError ∧
    (loopIterationFs cfgEx envAllOk snapNoneEx fsStart).2 =
      some ExcKind.typeError ∧
    syncLoopCatches ExcKind.calledProcessError = false ∧
    syncLoopCatches ExcKind.typeError = false :=
  ⟨rfl, rfl, rfl, rfl⟩

/-- Counterexample to claim C5 as stated: when the local `rclone lsf`
listing fails, the aborted cycle leaves `local_check.txt` inside the
lock directory, so `os.rmdir` in `release_lock` fails (the `OSError`
is swallowed) and the lock marker still exists after the cycle's
cleanup path has completed. -/
theorem claim_C5_cex :
    (loopIterationFs cfgEx envLsfLocalFail snapEx fsStart).1.lockDir =
      true ∧
    (loopIterationFs cfgEx envLsfLocalFail snapEx fsStart).1.scratch =
      ["local_check.txt"] :=
  ⟨rfl, rfl⟩

/-- Claim C5 (amended): lock release is executed on every exit path of
the cycle (the `finally` block), but removal is best-effort: after
cleanup the marker is gone exactly when the cycle left no scratch files
inside the lock directory — in particular after every complete cycle,
but not when a stage aborted between writing and removing a scratch
file. -/
theorem claim_C5 (cfg : SyncConfig) (env : CycleEnv) (snap : SnapshotIn)
    (st0 : FsState) :
    (loopIterationFs cfg env snap st0).1 =
      releaseLockFs (runFs cfg env snap { st0 with lockDir := true }).1 ∧
    ((loopIterationFs cfg env snap st0).1.lockDir = false ↔
      (runFs cfg env snap { st0 with lockDir := true }).1.scratch = []) := by
  constructor
  · rfl
  · exact releaseLockFs_lockDir _ (runFs_lockDir cfg env snap _)

/-- Counterexample to claim C8 as stated: with the dry-run flag set and
a non-empty local-backup list, step 2 of the executor is not
suppressed — its backend calls are still issued (in simulate mode): the
trace contains an `rclone delete` invocation. -/
theorem claim_C8_cex :
    Call.cmd ["rclone", "--dry-run", "delete", "--files-from",
        "/data/.rclouned/sync.tmp/local_backup.txt", "/data/", "--rmdirs"]
      ∈ actionCalls cfgDry "bk/" planLbEx := by
  decide

/-- Claim C8 (amended): with the dry-run flag set, no last-sync marker
write occurs, no local rename (`mv`) is run — step 1 is suppressed —
and every rclone invocation of steps 2-5 carries `--dry-run`, i.e. is
issued to the backend in simulate mode only; no destructive call is
made for real. -/
theorem claim_C8 (cfg : SyncConfig) (backupDir : String) (plan : Plan)
    (h : cfg.dryrun = true) :
    Call.lastSyncWrite ∉ runTailCalls cfg backupDir plan ∧
    (∀ c ∈ runTailCalls cfg backupDir plan, c.isMv = false) ∧
    (∀ c ∈ runTailCalls cfg backupDir plan, ∀ rest,
      c.rcloneArgs = some rest → "--dry-run" ∈ rest) := by
  refine ⟨?_, fun c hc => (dryTraceOk cfg backupDir plan h c hc).1,
    fun c hc => (dryTraceOk cfg backupDir plan h c hc).2.1⟩
  intro hmem
  exact (dryTraceOk cfg backupDir plan h _ hmem).2.2 rfl

/-- Witness for claim C8 at a concrete dry-run configuration with a
non-empty local-backup list. -/
theorem claim_C8_witness :
    Call.lastSyncWrite ∉ runTailCalls cfgDry "bk/" planLbEx ∧
    (∀ c ∈ runTailCalls cfgDry "bk/" planLbEx, c.isMv = false) ∧
    (∀ c ∈ runTailCalls cfgDry "bk/" planLbEx, ∀ rest,
      c.rcloneArgs = some rest → "--dry-run" ∈ rest) :=
  claim_C8 cfgDry "bk/" planLbEx rfl

/-- Claim C9: in normal (non-dry-run) mode the executor's trace is the
concatenation, in this fixed order, of the local-move renames, the
local-backup block, the remote-backup block, the upload block and the
download block; and each step contributes no calls at all when its
input list is empty. -/
theorem claim_C9 (cfg : SyncConfig) (backupDir : String) (plan : Plan)
    (h : cfg.dryrun = false) :
    actionCalls cfg backupDir plan =
      step1Moves cfg plan ++ step2LocalBackup cfg backupDir plan
        ++ step3RemoteBackup cfg backupDir plan ++ step4Upload cfg plan
        ++ step5Download cfg plan ∧
    (plan.local_move = [] → step1Moves cfg plan = []) ∧
    (plan.local_backup = [] → step2LocalBackup cfg backupDir plan = []) ∧
    (plan.remote_backup = [] → step3RemoteBackup cfg backupDir plan = []) ∧
    (plan.upload = [] → step4Upload cfg plan = []) ∧
    (plan.download = [] → step5Download cfg plan = []) := by
  refine ⟨?_, ?_, ?_, ?_, ?_, ?_⟩
  · unfold actionCalls step1Moves step2LocalBackup step3RemoteBackup
      step4Upload step5Download
    rw [if_neg (by simp [h] : ¬(cfg.dryrun = true))]
  · intro he
    simp [step1Moves, he]
  · intro he
    simp [step2LocalBackup, he]
  · intro he
    simp [step3RemoteBackup, he]
  · intro he
    simp [step4Upload, he]
  · intro he
    simp [step5Download, he]

/-- Witness for claim C9 at a concrete non-dry-run configuration. -/
theorem claim_C9_witness :
    actionCalls cfgEx "bk/" planLbEx =
      step1Moves cfgEx planLbEx ++ step2LocalBackup cfgEx "bk/" planLbEx
        ++ step3RemoteBackup cfgEx "bk/" planLbEx
        ++ step4Upload cfgEx planLbEx ++ step5Download cfgEx planLbEx ∧
    (planLbEx.local_move = [] → step1Moves cfgEx planLbEx = []) ∧
    (planLbEx.local_backup = [] →
      step2LocalBackup cfgEx "bk/" planLbEx = []) ∧
    (planLbEx.remote_backup = [] →
      step3RemoteBackup cfgEx "bk/" planLbEx = []) ∧
    (planLbEx.upload = [] → step4Upload cfgEx planLbEx = []) ∧
    (planLbEx.download = [] → step5Download cfgEx planLbEx = []) :=
  claim_C9 cfgEx "bk/" planLbEx rfl

/-- Claim C10: with the dry-run flag set, a differing path in the
conflict branch yields an upload list containing the suffixed name
while the local rename is skipped entirely: no `mv` call appears in the
trace, the upload copy command is still issued, and the suffixed path
does not exist in the local tree after the (skipped) move phase. -/
theorem claim_C10 (cfg : SyncConfig) (careful : Bool) (ls : Int)
    (lc rc : String → Option Int) (now : String)
    (diff src dst : List String) (plan : Plan) (backupDir : String)
    (p : String) (lv rv : Int) (fs : String → Bool)
    (hdry : cfg.dryrun = true)
    (hplan : sortPlan careful ls lc rc now diff src dst = some plan)
    (hp : p ∈ diff) (hlc : lc p = some lv) (hrc : rc p = some rv)
    (hnup : ¬(lv ≥ ls ∧ rv < ls)) (hndown : ¬(lv < ls ∧ rv ≥ ls))
    (hfresh : fs (p ++ conflictSuffix now) = false) :
    (p ++ conflictSuffix now) ∈ plan.upload ∧
    movePhase cfg plan fs (p ++ conflictSuffix now) = false ∧
    (∀ c ∈ actionCalls cfg backupDir plan, c.isMv = false) ∧
    (∀ c ∈ execRcloneCalls cfg ["copy", "--files-from",
        cfg.folder ++ ".rclouned/sync.tmp/upload.txt", cfg.folder,
        cfg.remote ++ ":" ++ cfg.subdir],
      c ∈ actionCalls cfg backupDir plan) := by
  obtain ⟨-, -, -, hup, -, -, -, -⟩ :=
    sortPlan_inv careful ls lc rc now diff src dst plan hplan
  have hupmem : (p ++ conflictSuffix now) ∈ plan.upload := by
    rw [hup]
    exact List.mem_append_left _
      (List.mem_flatMap.mpr
        ⟨p, hp, by simp [diffUploadOf, hlc, hrc, hnup, hndown]⟩)
  refine ⟨hupmem, ?_, ?_, ?_⟩
  · unfold movePhase
    rw [if_pos hdry]
    exact hfresh
  · intro c hc
    exact (dryTraceOk cfg backupDir plan hdry c
      (List.mem_append_left _ hc)).1
  · intro c hcm
    have hne : plan.upload.length ≠ 0 := by
      intro h0
      rw [List.length_eq_zero] at h0
      rw [h0] at hupmem
      simp at hupmem
    unfold actionCalls
    refine List.mem_append_left _ (List.mem_append_right _ ?_)
    rw [if_pos hne]
    exact List.mem_append_left _ (List.mem_append_right _ hcm)

/-- Witness for claim C10 at a concrete dry-run conflict (both modtimes
12, lastsync 10, empty local tree). -/
theorem claim_C10_witness :
    ("a.txt" ++ conflictSuffix "TS") ∈ planConfEx.upload ∧
    movePhase cfgDry planConfEx noFiles ("a.txt" ++ conflictSuffix "TS") =
      false ∧
    (∀ c ∈ actionCalls cfgDry "bk/" planConfEx, c.isMv = false) ∧
    (∀ c ∈ execRcloneCalls cfgDry ["copy", "--files-from",
        cfgDry.folder ++ ".rclouned/sync.tmp/upload.txt", cfgDry.folder,
        cfgDry.remote ++ ":" ++ cfgDry.subdir],
      c ∈ actionCalls cfgDry "bk/" planConfEx) :=
  claim_C10 cfgDry false 10 mtTwelve mtTwelve "TS" ["a.txt"] [] []
    planConfEx "bk/" "a.txt" 12 12 noFiles rfl (by decide) (by decide)
    (by decide) (by decide) (by decide) (by decide) rfl

end Rclouned
